import Mathlib

/-!
# snapcraft-preload: path redirection, interception wrappers, exec environment

A shallow embedding of `src/preload.cpp`.

* A `std::string` and the contents of a C string are a `List Char` (`Str`).
  A `const char *` argument is an `Option Str`: `none` is the null pointer.
* The process-wide globals written by `Initializer::Initializer` are the
  fields of `Context`; every function that reads a global takes the context.
* `std::out_of_range`, the one exception the string calls of this file can
  throw, is the `none` of an `Option` result.
* The next definition of an intercepted symbol (`dlsym (RTLD_NEXT, ...)`) is
  a function parameter `func` of the wrapper that calls it.
* A `Str` that stands for a C string holds no NUL. The code builds its
  `std::string`s from C strings and literals only, so `c_str ()` hands the
  same characters back.
* Text written to `std::cerr` is advisory and is not modelled.
-/

set_option linter.unusedVariables false

namespace SnapcraftPreload

/-- Contents of a `std::string`, or of a C string up to its terminator. -/
abbrev Str := List Char

/-- The terminator of a C string. -/
def NUL : Char := Char.ofNat 0

/-! ## Constants (preload.cpp 44-59) -/

def SNAPCRAFT_LIBNAME_DEF : Str := "libsnapcraft-preload.so".toList
def SNAPCRAFT_LIBNAME : Str := SNAPCRAFT_LIBNAME_DEF
def SNAPCRAFT_PRELOAD : Str := "SNAPCRAFT_PRELOAD".toList
def LD_PRELOAD : Str := "LD_PRELOAD".toList
def LD_LINUX : Str := "/lib/ld-linux.so.2".toList

def DEFAULT_DEVSHM : Str := "/dev/shm/".toList
def SKYPE_DFLT_SHM_TMPFILE : Str := "/dev/shm/.org.chromium.Chromium.".toList
def SKYPE_SNAP_SHM_TMPFILE : Str := "/dev/shm/snap.skype.xx.Chromium.".toList

/-- Modelled from the spec: `PATH_MAX` is a macro of the platform header
`<limits.h>`, which is not under src/; the specification's "maximum platform
path length" is 4096 on Linux. -/
def PATH_MAX : Nat := 4096

/-! ## The `std::string` members the code calls -/

/-- Three-way comparison of two strings, as `std::string::compare` orders
them: the sign of the first differing character, a proper prefix first. -/
def lexCompare : Str → Str → Int
  | [], [] => 0
  | [], _ :: _ => -1
  | _ :: _, [] => 1
  | a :: as, b :: bs => if a < b then -1 else if b < a then 1 else lexCompare as bs

/-- Member `s.compare (pos, len, str)`: compares the at most `len` characters of
`s` from `pos` on with `str`; throws `std::out_of_range` when
`pos > s.size ()`. -/
def compare (s : Str) (pos len : Nat) (str : Str) : Option Int :=
  if pos > s.length then none else some (lexCompare ((s.drop pos).take len) str)

/-- Member `s.substr (pos)` (`len = npos`): the characters from `pos` on; throws
`std::out_of_range` when `pos > s.size ()`. -/
def substr (s : Str) (pos : Nat) : Option Str :=
  if pos > s.length then none else some (s.drop pos)

/-- Member `s.replace (pos, len, str)`: the at most `len` characters of `s` from
`pos` on are replaced by `str`; throws `std::out_of_range` when
`pos > s.size ()`. -/
def replace (s : Str) (pos len : Nat) (str : Str) : Option Str :=
  if pos > s.length then none
  else some (s.take pos ++ str ++ s.drop (pos + min len (s.length - pos)))

/-- Call `std::getline (ss, p, delim)` on an `std::istringstream` whose unread
characters are `ss`: `none` when nothing is left to read (the stream fails
and the `while` around it ends), otherwise the characters before the first
`delim` (the new value of `p`) and the unread characters after that `delim`. -/
def getline (ss : Str) (delim : Char) : Option (Str × Str) :=
  match ss with
  | [] => none
  | _ :: _ => some (ss.takeWhile (fun c => c != delim), (ss.dropWhile (fun c => c != delim)).drop 1)

/-- The successive values of `p` in `while (std::getline (ss, p, delim))`,
for a stream that starts with the unread characters `ss`. -/
def getlines (ss : Str) (delim : Char) : List Str :=
  match h : getline ss delim with
  | none => []
  | some (p, rest) => p :: getlines rest delim
termination_by ss.length
decreasing_by
  cases ss with
  | nil => simp [getline] at h
  | cons c cs =>
    simp only [getline, Option.some.injEq, Prod.mk.injEq] at h
    rw [← h.2, List.length_drop]
    have h1 := (List.dropWhile_suffix (fun x => x != delim) (l := c :: cs)).length_le
    simp only [List.length_cons] at h1 ⊢
    omega

/-! ## Helpers of the unnamed namespace (preload.cpp 79-99) -/

/-- Function `getenv_string`: the value `secure_getenv` returns, or `""` for null.
`secure_getenv` belongs to the C library and is a parameter. -/
def getenv_string (secure_getenv : Str → Option Str) (varname : Str) : Str :=
  match secure_getenv varname with
  | some envvar => envvar
  | none => []

/-- Function `str_starts_with`: `str.compare (0, prefix.size (), prefix) == 0`. At
position 0 `compare` cannot throw. -/
def str_starts_with (str pre : Str) : Bool :=
  compare str 0 pre.length pre == some 0

/-- Function `str_ends_with`. After the size test the position passed to `compare`
is at most `str.size ()`, so it cannot throw. -/
def str_ends_with (str sufix : Str) : Bool :=
  if str.length < sufix.length then false
  else compare str (str.length - sufix.length) sufix.length sufix == some 0

/-! ## The saved context (preload.cpp 61-67, 104-135) -/

/-- The globals `saved_*`, written once by `Initializer::Initializer`. -/
structure Context where
  saved_snapcraft_preload : Str
  saved_snap_name : Str
  saved_snap_revision : Str
  saved_snap_devshm : Str
  saved_ld_preloads : List Str

/-- Constructor `Initializer::Initializer`, for the environment `secure_getenv` reads. -/
def Initializer (secure_getenv : Str → Option Str) : Context :=
  let ld_preload := getenv_string secure_getenv LD_PRELOAD
  { saved_snapcraft_preload := getenv_string secure_getenv SNAPCRAFT_PRELOAD
    saved_snap_name := getenv_string secure_getenv "SNAP_NAME".toList
    saved_snap_revision := getenv_string secure_getenv "SNAP_REVISION".toList
    saved_snap_devshm := DEFAULT_DEVSHM ++ "snap.".toList ++ getenv_string secure_getenv "SNAP_NAME".toList
    saved_ld_preloads :=
      (getlines ld_preload ':').foldl
        (fun saved p =>
          if str_ends_with p ("/".toList ++ SNAPCRAFT_LIBNAME_DEF) then saved ++ [p] else saved)
        [] }

/-! ## The redirection policy (preload.cpp 137-201) -/

/-- Function `string_length_sanitize`: a path of `PATH_MAX` characters or more is cut
to `PATH_MAX` characters. -/
def string_length_sanitize (path : Str) : Str :=
  if path.length ≥ PATH_MAX then path.take PATH_MAX else path

/-- Function `redirect_path_full`; the flag `check_parent` is not read by
the body. -/
def redirect_path_full (ctx : Context) (pathname : Str) (check_parent only_if_absolute : Bool) :
    Option Str :=
  if pathname.isEmpty then some pathname
  else
    let preload_dir := ctx.saved_snapcraft_preload
    if preload_dir.isEmpty then some pathname
    else if only_if_absolute && pathname.getD 0 NUL != '/' then some pathname
    else if str_starts_with pathname DEFAULT_DEVSHM
        && !str_starts_with pathname ctx.saved_snap_devshm
        && decide (pathname.length > DEFAULT_DEVSHM.length) then
      if str_starts_with pathname SKYPE_DFLT_SHM_TMPFILE then
        replace pathname 0 SKYPE_SNAP_SHM_TMPFILE.length SKYPE_SNAP_SHM_TMPFILE
      else do
        let new_pathname ← substr pathname DEFAULT_DEVSHM.length
        let redirected_pathname := ctx.saved_snap_devshm ++ ['.'] ++ new_pathname
        some (string_length_sanitize redirected_pathname)
    else some pathname

/-- Function `redirect_path`. -/
def redirect_path (ctx : Context) (pathname : Str) : Option Str :=
  redirect_path_full ctx pathname false false

/-- Function `redirect_path_target`. -/
def redirect_path_target (ctx : Context) (pathname : Str) : Option Str :=
  redirect_path_full ctx pathname true false

/-- Function `redirect_path_if_absolute`. -/
def redirect_path_if_absolute (ctx : Context) (pathname : Str) : Option Str :=
  redirect_path_full ctx pathname false true

/-- The three policy classes a wrapper template is instantiated with. -/
inductive RedirectType where
  | NORMAL_REDIRECT
  | ABSOLUTE_REDIRECT
  | TARGET_REDIRECT
  deriving DecidableEq, Repr

/-- The static member `redirect` of each policy class. -/
def RedirectType.redirect : RedirectType → Context → Str → Option Str
  | .NORMAL_REDIRECT, ctx, path => redirect_path ctx path
  | .ABSOLUTE_REDIRECT, ctx, path => redirect_path_if_absolute ctx path
  | .TARGET_REDIRECT, ctx, path => redirect_path_target ctx path

/-! ## The interception templates (preload.cpp 228-306) -/

/-- Template `redirect_n<R, FUNC_NAME, REDIRECT_PATH_TYPE, PATH_IDX, Ts...>`. The
argument pack is the arguments before position `PATH_IDX` (`pre`), the
pathname, and the arguments after it (`post`); `func` is the next definition
of `FUNC_NAME`. Writing `path` back into the local tuple after the call has
no effect a caller can see. -/
def redirect_n {α β R : Type} (ctx : Context) (REDIRECT_PATH_TYPE : RedirectType)
    (func : α → Option Str → β → R) (pre : α) (path : Option Str) (post : β) : Option R :=
  match path with
  | some p => do
    let new_path ← REDIRECT_PATH_TYPE.redirect ctx p
    let result := func pre (some new_path) post
    some result
  | none => some (func pre none post)

/-- The bytes of a caller-owned `char` array, from the address a `char *`
holds to the end of the array, terminator included. -/
abbrev Mem := List Char

/-- The C string a `char *` addresses: the bytes before the first NUL. -/
def c_string (mem : Mem) : Str := mem.takeWhile (fun c => c != NUL)

/-- Function `strlen` of the C library. -/
def strlen (mem : Mem) : Nat := (c_string mem).length

/-- Call `strdup (s.c_str ())`: a fresh array holding the characters of `s` up to
its first NUL, and the terminator. -/
def strdup (s : Str) : Mem := c_string s ++ [NUL]

/-- Call `strncpy (dest, src, n)`: writes exactly the first `n` bytes of `dest`,
with the characters of the C string in `src`, at most `n` of them, followed
by NUL bytes up to `n`. -/
def strncpy (dest src : Mem) (n : Nat) : Mem :=
  (c_string src).take n ++ List.replicate (n - ((c_string src).take n).length) NUL ++ dest.drop n

/-- Template `redirect_n_nonconst_path<R, FUNC_NAME, REDIRECT_PATH_TYPE, PATH_IDX, Ts...>`.
`path` is the caller's array (`none`: a null pointer). `func` is given the
array its pointer argument addresses and returns its result and the bytes it
leaves in that array (for a null pointer the second component means
nothing). The value is the result and the final bytes of the caller's array. -/
def redirect_n_nonconst_path {α β R : Type} (ctx : Context) (REDIRECT_PATH_TYPE : RedirectType)
    (func : α → Option Mem → β → R × Mem) (pre : α) (path : Option Mem) (post : β) :
    Option (R × Option Mem) :=
  match path with
  | some mem => do
    let new_path ← REDIRECT_PATH_TYPE.redirect ctx (c_string mem)
    if new_path.length ≤ strlen mem then
      let buf := strdup new_path
      let (result, buf) := func pre (some buf) post
      some (result, some (strncpy mem buf (strlen mem)))
    else
      let (result, mem) := func pre (some mem) post
      some (result, some mem)
  | none => some ((func pre none post).1, none)

/-- Template `redirect_target<R, FUNC_NAME, REDIRECT_PATH_TYPE, REDIRECT_TARGET_TYPE>`
(the pack `Ts` is empty in `link` and `rename`). The target is redirected
with `REDIRECT_PATH_TYPE`, as the source is; `REDIRECT_TARGET_TYPE` is not
used by the body. -/
def redirect_target {R : Type} (ctx : Context)
    (REDIRECT_PATH_TYPE REDIRECT_TARGET_TYPE : RedirectType)
    (func : Option Str → Option Str → R) (path target : Option Str) : Option R := do
  let new_target ← REDIRECT_PATH_TYPE.redirect ctx (match target with | some t => t | none => [])
  redirect_n ctx REDIRECT_PATH_TYPE (fun (_ : Unit) p t => func p t) () path (some new_target)

/-- The macros of `<fcntl.h>` that `redirect_open` tests. The header is not
under src/, so their values are parameters. -/
structure Fcntl where
  O_CREAT : Nat
  O_TMPFILE : Nat

/-- The values of the macros on Linux (`asm-generic/fcntl.h`): `O_CREAT` is
`0100` and `O_TMPFILE` is `020000000 | O_DIRECTORY`. -/
def Fcntl.linux : Fcntl := { O_CREAT := 0o100, O_TMPFILE := 0o20000000 ||| 0o200000 }

/-- Macro `O_RDONLY` on Linux. -/
def O_RDONLY : Nat := 0

/-- Macro `O_DIRECTORY` on Linux (`asm-generic/fcntl.h`). -/
def O_DIRECTORY : Nat := 0o200000

/-- Call `va_arg (va, mode_t)` on the variadic arguments the caller passed and
that are not yet consumed: the next one and the rest. With none left the
behaviour is undefined (`none`). -/
def va_arg (va : List Nat) : Option (Nat × List Nat) :=
  match va with
  | [] => none
  | m :: rest => some (m, rest)

/-- Template `redirect_open<R, FUNC_NAME, REDIRECT_PATH_TYPE, PATH_IDX, Ts...>`; the
pack ends with the pathname and `flags`. The value is the result and the
variadic arguments left unconsumed; `none` is undefined behaviour or an
exception. -/
def redirect_open {α R : Type} (K : Fcntl) (ctx : Context) (REDIRECT_PATH_TYPE : RedirectType)
    (func : α → Option Str → Nat → Nat → R) (pre : α) (path : Option Str) (flags : Nat)
    (va : List Nat) : Option (R × List Nat) := do
  let (mode, va) ←
    if flags &&& (K.O_CREAT ||| K.O_TMPFILE) ≠ 0 then va_arg va else some (0, va)
  let ret ← redirect_n ctx REDIRECT_PATH_TYPE
    (fun a p (fm : Nat × Nat) => func a p fm.1 fm.2) pre path (flags, mode)
  some (ret, va)

/-! ## Process replacement (preload.cpp 440-527) -/

/-- The loop of `ensure_in_ld_preload` over the strings `std::getline`
reads: `while (std::getline (ss, p, ':') && !found)`. -/
def ensure_in_ld_preload.scan (to_be_added : Str) : List Str → Bool → Bool
  | [], found => found
  | p :: ps, found =>
    if !found then ensure_in_ld_preload.scan to_be_added ps (if p = to_be_added then true else found)
    else found

/-- Function `ensure_in_ld_preload`: the new value of `ld_preload`. -/
def ensure_in_ld_preload (ld_preload to_be_added : Str) : Option Str :=
  if !ld_preload.isEmpty then do
    let ss ← substr ld_preload (LD_PRELOAD.length + 1)
    let found := ensure_in_ld_preload.scan to_be_added (getlines ss ':') false
    if !found then some (ld_preload ++ ':' :: to_be_added) else some ld_preload
  else some (LD_PRELOAD ++ ['='] ++ to_be_added)

/-- Function `execve_copy_envp`. `envp` is `none` for a null pointer, otherwise the
entries before the terminating null. -/
def execve_copy_envp (ctx : Context) (envp : Option (List Str)) : Option (List Str) := do
  let (ld_preload, new_envp) :=
    (match envp with | some es => es | none => []).foldl
      (fun (st : Str × List Str) env =>
        (if str_starts_with env (LD_PRELOAD ++ ['=']) then env else st.1, st.2 ++ [env]))
      ([], [])
  let ld_preload ← ctx.saved_ld_preloads.foldlM ensure_in_ld_preload ld_preload
  let new_envp := if !ctx.saved_ld_preloads.isEmpty then new_envp ++ [ld_preload] else new_envp
  let new_envp :=
    if !ctx.saved_snapcraft_preload.isEmpty then
      new_envp ++ [SNAPCRAFT_PRELOAD ++ ['='] ++ ctx.saved_snapcraft_preload]
    else new_envp
  some new_envp

/-- Function `execve_wrapper`; `_execve` is the next definition of the symbol named
by the argument `func` of the source. `c_vector_holder` hands the strings of
`env_copy` over as an array with a terminating null. -/
def execve_wrapper {A R : Type} (ctx : Context)
    (_execve : Option Str → A → Option (List Str) → R) (path : Option Str) (argv : A)
    (envp : Option (List Str)) : Option R :=
  match path with
  | none => some (_execve path argv envp)
  | some p => do
    let new_path ← redirect_path ctx p
    let env_copy ← execve_copy_envp ctx envp
    let result := _execve (some new_path) argv (some env_copy)
    some result

/-! ## Specification side of the environment merge -/

/-- The value of `ld_preload` after the first loop of `execve_copy_envp`
over the entries `es`. -/
def lastLdPreload (es : List Str) : Str :=
  es.foldl (fun ld env => if str_starts_with env (LD_PRELOAD ++ ['=']) then env else ld) []

/-- Specification side: the string `s` with `":" ++ p` appended for each
path `p` of `paths`, in order. -/
def appendPaths (s : Str) (paths : List Str) : Str :=
  paths.foldl (fun acc p => acc ++ ':' :: p) s

/-- Specification side: the saved paths to append to a value in which the
paths `listed` are listed: every path that is not listed yet, once, in order. -/
def pathsToAppend (listed : List Str) : List Str → List Str
  | [] => []
  | p :: ps =>
    if p ∈ listed then pathsToAppend listed ps else p :: pathsToAppend (p :: listed) ps

/-! ## A concrete environment, for the examples -/

/-- An environment in which the layer is active for the snap `skype`, loaded
through `LD_PRELOAD`. -/
def exampleEnv : Str → Option Str := fun varname =>
  if varname = "SNAPCRAFT_PRELOAD".toList then some "/snap/skype/1".toList
  else if varname = "SNAP_NAME".toList then some "skype".toList
  else if varname = "SNAP_REVISION".toList then some "1".toList
  else if varname = "LD_PRELOAD".toList then
    some "/snap/skype/1/lib/libsnapcraft-preload.so".toList
  else none

/-- An underlying operation in the manner of `mkstemp`, for the examples: it
overwrites the last six characters of the C string in the array it is given
with `abc123` and returns the descriptor 3; on a null pointer it returns -1. -/
def exampleMkstemp : Unit → Option Mem → Unit → Int × Mem := fun _ path _ =>
  match path with
  | none => (-1, [])
  | some mem =>
    (3, (c_string mem).take (strlen mem - 6) ++ "abc123".toList ++ mem.drop (strlen mem))

/-- An environment without any of the variables the layer reads. -/
def emptyEnv : Str → Option Str := fun _ => none

/-! ## Lemmas on the string helpers -/

theorem lexCompare_eq_zero_iff (a b : Str) : lexCompare a b = 0 ↔ a = b := by
  induction a generalizing b with
  | nil => cases b <;> simp [lexCompare]
  | cons x xs ih =>
    cases b with
    | nil => simp [lexCompare]
    | cons y ys =>
      simp only [lexCompare, List.cons.injEq]
      by_cases h1 : x < y
      · simp only [h1, if_true]
        constructor
        · intro h; omega
        · rintro ⟨rfl, -⟩; exact absurd h1 (lt_irrefl _)
      · by_cases h2 : y < x
        · simp only [h1, h2, if_false, if_true]
          constructor
          · intro h; omega
          · rintro ⟨rfl, -⟩; exact absurd h2 (lt_irrefl _)
        · simp only [h1, h2, if_false, ih]
          have hxy : x = y := le_antisymm (not_lt.mp h2) (not_lt.mp h1)
          simp [hxy]

theorem str_starts_with_iff (str pre : Str) : str_starts_with str pre = true ↔ pre <+: str := by
  simp only [str_starts_with, compare, Nat.not_lt_zero, gt_iff_lt, if_false, List.drop_zero,
    beq_iff_eq, Option.some.injEq, lexCompare_eq_zero_iff]
  rw [List.prefix_iff_eq_take]
  exact eq_comm

theorem str_ends_with_iff (str sufix : Str) : str_ends_with str sufix = true ↔ sufix <:+ str := by
  unfold str_ends_with
  by_cases h : str.length < sufix.length
  · simp only [h, if_true, Bool.false_eq_true, false_iff]
    intro hs
    have := hs.length_le
    omega
  · have h3 : ¬ (str.length - sufix.length > str.length) := by omega
    simp only [h, if_false, compare, h3, beq_iff_eq, Option.some.injEq, lexCompare_eq_zero_iff]
    rw [List.suffix_iff_eq_drop]
    have h4 : (List.drop (str.length - sufix.length) str).length ≤ sufix.length := by
      rw [List.length_drop]; omega
    rw [List.take_of_length_le h4]
    exact eq_comm

theorem str_starts_with_eq_decide (str pre : Str) :
    str_starts_with str pre = decide (pre <+: str) := by
  rw [Bool.eq_iff_iff, str_starts_with_iff, decide_eq_true_iff]

/-! ## Closed forms of `redirect_path_full` -/

/-- The branch of `redirect_path_full` that leaves the path alone. -/
theorem redirect_path_full_unchanged (ctx : Context) (pathname : Str)
    (check_parent only_if_absolute : Bool)
    (h : ctx.saved_snapcraft_preload = [] ∨ pathname = []
      ∨ (only_if_absolute = true ∧ ¬ ['/'] <+: pathname)
      ∨ ¬ DEFAULT_DEVSHM <+: pathname ∨ pathname = DEFAULT_DEVSHM
      ∨ ctx.saved_snap_devshm <+: pathname) :
    redirect_path_full ctx pathname check_parent only_if_absolute = some pathname := by
  unfold redirect_path_full
  simp only [str_starts_with_eq_decide]
  rcases h with h | h | h | h | h | h
  · by_cases hp : pathname.isEmpty = true
    · simp [hp]
    · simp [hp, h]
  · simp [h]
  · obtain ⟨h1, h2⟩ := h
    by_cases hp : pathname.isEmpty = true
    · simp [hp]
    · by_cases hq : ctx.saved_snapcraft_preload.isEmpty = true
      · simp [hp, hq]
      · have h3 : (only_if_absolute && pathname.getD 0 NUL != '/') = true := by
          cases pathname with
          | nil => simp at hp
          | cons c cs =>
            have hc : c ≠ '/' := by
              intro hc
              exact h2 (by rw [hc]; exact List.prefix_iff_eq_take.mpr rfl)
            simp [h1, hc]
        simp only [hp, hq, h3, if_true, if_false, Bool.false_eq_true]
  · simp only [h, decide_False, Bool.false_and, Bool.false_eq_true, if_false]
    split_ifs <;> rfl
  · have h9 : ¬ (pathname.length > DEFAULT_DEVSHM.length) := by rw [h]; exact lt_irrefl _
    simp only [h9, decide_False, Bool.and_false, Bool.false_eq_true, if_false]
    split_ifs <;> rfl
  · simp only [h, decide_True, Bool.not_true, Bool.and_false, Bool.false_and, Bool.false_eq_true,
      if_false]
    split_ifs <;> rfl

/-- The re-rooting branch of `redirect_path_full`. -/
theorem redirect_path_full_reroot (ctx : Context) (X : Str)
    (check_parent only_if_absolute : Bool)
    (hctx : ctx.saved_snapcraft_preload ≠ []) (hX : X ≠ [])
    (hsub : ¬ ctx.saved_snap_devshm <+: DEFAULT_DEVSHM ++ X)
    (hlegacy : ¬ SKYPE_DFLT_SHM_TMPFILE <+: DEFAULT_DEVSHM ++ X) :
    redirect_path_full ctx (DEFAULT_DEVSHM ++ X) check_parent only_if_absolute
      = some (string_length_sanitize (ctx.saved_snap_devshm ++ ['.'] ++ X)) := by
  unfold redirect_path_full
  simp only [str_starts_with_eq_decide]
  have h1 : (DEFAULT_DEVSHM ++ X).isEmpty = false := by
    simp [DEFAULT_DEVSHM]
  have h2 : ctx.saved_snapcraft_preload.isEmpty = false := by
    cases hc : ctx.saved_snapcraft_preload with
    | nil => exact absurd hc hctx
    | cons _ _ => rfl
  have h3 : ((DEFAULT_DEVSHM ++ X).getD 0 NUL != '/') = false := by
    simp [DEFAULT_DEVSHM]
  have h4 : (DEFAULT_DEVSHM ++ X).length > DEFAULT_DEVSHM.length := by
    have : 0 < X.length := List.length_pos.mpr hX
    rw [List.length_append]; omega
  have h5 : DEFAULT_DEVSHM <+: DEFAULT_DEVSHM ++ X := List.prefix_append _ _
  have h6 : substr (DEFAULT_DEVSHM ++ X) DEFAULT_DEVSHM.length = some X := by
    unfold substr
    rw [if_neg (by rw [List.length_append]; omega), List.drop_left]
  simp only [h1, h2, h3, h4, h5, hsub, hlegacy, h6, Bool.and_false, Bool.false_eq_true, if_false,
    decide_True, decide_False, Bool.not_false, Bool.and_self, if_true]
  rfl

/-- The legacy branch of `redirect_path_full`: the sandbox subpath of the
context plays no role, because a path with the legacy prefix never starts
with `"/dev/shm/snap."`. -/
theorem redirect_path_full_legacy (ctx : Context) (suffix : Str)
    (check_parent only_if_absolute : Bool)
    (hctx : ctx.saved_snapcraft_preload ≠ [])
    (hsub : ¬ ctx.saved_snap_devshm <+: SKYPE_DFLT_SHM_TMPFILE ++ suffix) :
    redirect_path_full ctx (SKYPE_DFLT_SHM_TMPFILE ++ suffix) check_parent only_if_absolute
      = some (SKYPE_SNAP_SHM_TMPFILE ++ suffix) := by
  unfold redirect_path_full
  simp only [str_starts_with_eq_decide]
  have h1 : (SKYPE_DFLT_SHM_TMPFILE ++ suffix).isEmpty = false := by
    simp [SKYPE_DFLT_SHM_TMPFILE]
  have h2 : ctx.saved_snapcraft_preload.isEmpty = false := by
    cases hc : ctx.saved_snapcraft_preload with
    | nil => exact absurd hc hctx
    | cons _ _ => rfl
  have h3 : ((SKYPE_DFLT_SHM_TMPFILE ++ suffix).getD 0 NUL != '/') = false := by
    simp [SKYPE_DFLT_SHM_TMPFILE]
  have h4 : (SKYPE_DFLT_SHM_TMPFILE ++ suffix).length > DEFAULT_DEVSHM.length := by
    rw [List.length_append]
    have : SKYPE_DFLT_SHM_TMPFILE.length = 32 := by decide
    have : DEFAULT_DEVSHM.length = 9 := by decide
    omega
  have h5 : DEFAULT_DEVSHM <+: SKYPE_DFLT_SHM_TMPFILE ++ suffix :=
    (show DEFAULT_DEVSHM <+: SKYPE_DFLT_SHM_TMPFILE by decide).trans (List.prefix_append _ _)
  have h6 : SKYPE_DFLT_SHM_TMPFILE <+: SKYPE_DFLT_SHM_TMPFILE ++ suffix := List.prefix_append _ _
  have h7 : replace (SKYPE_DFLT_SHM_TMPFILE ++ suffix) 0 SKYPE_SNAP_SHM_TMPFILE.length
      SKYPE_SNAP_SHM_TMPFILE = some (SKYPE_SNAP_SHM_TMPFILE ++ suffix) := by
    unfold replace
    have e1 : SKYPE_SNAP_SHM_TMPFILE.length = SKYPE_DFLT_SHM_TMPFILE.length := by decide
    have e2 : min SKYPE_DFLT_SHM_TMPFILE.length
        ((SKYPE_DFLT_SHM_TMPFILE ++ suffix).length - 0) = SKYPE_DFLT_SHM_TMPFILE.length := by
      rw [List.length_append]; omega
    rw [if_neg (Nat.not_lt_zero _), e1, e2, Nat.zero_add, List.drop_left, List.take_zero,
      List.nil_append]
  simp only [h1, h2, h3, h4, h5, h6, hsub, h7, Bool.and_false, Bool.false_eq_true, if_false,
    decide_True, decide_False, Bool.not_false, Bool.and_self, if_true]

/-- A path with the legacy prefix is not under any subpath `"/dev/shm/snap.<name>"`. -/
theorem legacy_not_under_snap (name suffix : Str) :
    ¬ (DEFAULT_DEVSHM ++ "snap.".toList ++ name) <+: SKYPE_DFLT_SHM_TMPFILE ++ suffix := by
  intro h
  have h1 : (DEFAULT_DEVSHM ++ "snap.".toList) <+: SKYPE_DFLT_SHM_TMPFILE ++ suffix :=
    (List.prefix_append _ _).trans h
  have h2 : (DEFAULT_DEVSHM ++ "snap.".toList) <+: SKYPE_DFLT_SHM_TMPFILE :=
    List.prefix_of_prefix_length_le h1 (List.prefix_append _ _) (by decide)
  exact absurd h2 (by decide)

/-! ## The redirection policy: claims -/

/-- C1 (redirection confinement). With a non-empty saved `SNAPCRAFT_PRELOAD`,
for both values of each flag of `redirect_path_full` (so for the three
redirect modes) and every non-empty `X` such that `"/dev/shm/" ++ X` begins
neither with `"/dev/shm/snap.<SNAP_NAME>"` nor with the legacy prefix, the
result is exactly `"/dev/shm/snap.<SNAP_NAME>." ++ X`, provided that string
is shorter than `PATH_MAX`. -/
theorem redirect_confinement (secure_getenv : Str → Option Str) (X : Str)
    (hctx : (Initializer secure_getenv).saved_snapcraft_preload ≠ [])
    (hX : X ≠ [])
    (hsub : ¬ ("/dev/shm/snap.".toList ++ getenv_string secure_getenv "SNAP_NAME".toList)
      <+: "/dev/shm/".toList ++ X)
    (hlegacy : ¬ "/dev/shm/.org.chromium.Chromium.".toList <+: "/dev/shm/".toList ++ X)
    (hlen : ("/dev/shm/snap.".toList ++ getenv_string secure_getenv "SNAP_NAME".toList
      ++ ".".toList ++ X).length < PATH_MAX) :
    (∀ check_parent only_if_absolute : Bool,
      redirect_path_full (Initializer secure_getenv) ("/dev/shm/".toList ++ X)
          check_parent only_if_absolute
        = some ("/dev/shm/snap.".toList ++ getenv_string secure_getenv "SNAP_NAME".toList
            ++ ".".toList ++ X))
    ∧ ∀ mode : RedirectType,
      mode.redirect (Initializer secure_getenv) ("/dev/shm/".toList ++ X)
        = some ("/dev/shm/snap.".toList ++ getenv_string secure_getenv "SNAP_NAME".toList
            ++ ".".toList ++ X) := by
  have key : ∀ check_parent only_if_absolute : Bool,
      redirect_path_full (Initializer secure_getenv) ("/dev/shm/".toList ++ X)
          check_parent only_if_absolute
        = some ("/dev/shm/snap.".toList ++ getenv_string secure_getenv "SNAP_NAME".toList
            ++ ".".toList ++ X) := by
    intro check_parent only_if_absolute
    have h := redirect_path_full_reroot (Initializer secure_getenv) X check_parent
      only_if_absolute hctx hX hsub hlegacy
    have hs : string_length_sanitize ((Initializer secure_getenv).saved_snap_devshm ++ ['.'] ++ X)
        = (Initializer secure_getenv).saved_snap_devshm ++ ['.'] ++ X := by
      unfold string_length_sanitize
      exact if_neg (not_le.mpr hlen)
    rw [hs] at h
    exact h
  refine ⟨key, ?_⟩
  intro mode
  cases mode
  · exact key false false
  · exact key false true
  · exact key true false

theorem redirect_confinement_witness :
    redirect_path_full (Initializer exampleEnv) "/dev/shm/foo".toList false true
      = some "/dev/shm/snap.skype.foo".toList :=
  (redirect_confinement exampleEnv "foo".toList (by decide) (by decide) (by decide) (by decide)
    (by decide)).1 false true

/-- C2 (no-redirect cases). For every path, every context the initializer
can save and both values of each flag, `redirect_path_full` returns the path
unchanged when the saved `SNAPCRAFT_PRELOAD` is empty, or the path is empty,
or `only_if_absolute` is set and the path does not begin with `/`, or the
path does not begin with `"/dev/shm/"`, or is exactly `"/dev/shm/"`, or
begins with `"/dev/shm/snap.<SNAP_NAME>"`; the same holds for the three
redirect modes, `only_if_absolute` being the mode `ABSOLUTE_REDIRECT`. -/
theorem redirect_unchanged (secure_getenv : Str → Option Str) (pathname : Str) :
    (∀ check_parent only_if_absolute : Bool,
      ((Initializer secure_getenv).saved_snapcraft_preload = [] ∨ pathname = []
        ∨ (only_if_absolute = true ∧ ¬ "/".toList <+: pathname)
        ∨ ¬ "/dev/shm/".toList <+: pathname ∨ pathname = "/dev/shm/".toList
        ∨ ("/dev/shm/snap.".toList ++ getenv_string secure_getenv "SNAP_NAME".toList)
            <+: pathname) →
      redirect_path_full (Initializer secure_getenv) pathname check_parent only_if_absolute
        = some pathname)
    ∧ ∀ mode : RedirectType,
      ((Initializer secure_getenv).saved_snapcraft_preload = [] ∨ pathname = []
        ∨ (mode = RedirectType.ABSOLUTE_REDIRECT ∧ ¬ "/".toList <+: pathname)
        ∨ ¬ "/dev/shm/".toList <+: pathname ∨ pathname = "/dev/shm/".toList
        ∨ ("/dev/shm/snap.".toList ++ getenv_string secure_getenv "SNAP_NAME".toList)
            <+: pathname) →
      mode.redirect (Initializer secure_getenv) pathname = some pathname := by
  have key : ∀ check_parent only_if_absolute : Bool,
      ((Initializer secure_getenv).saved_snapcraft_preload = [] ∨ pathname = []
        ∨ (only_if_absolute = true ∧ ¬ "/".toList <+: pathname)
        ∨ ¬ "/dev/shm/".toList <+: pathname ∨ pathname = "/dev/shm/".toList
        ∨ ("/dev/shm/snap.".toList ++ getenv_string secure_getenv "SNAP_NAME".toList)
            <+: pathname) →
      redirect_path_full (Initializer secure_getenv) pathname check_parent only_if_absolute
        = some pathname :=
    fun check_parent only_if_absolute h =>
      redirect_path_full_unchanged (Initializer secure_getenv) pathname check_parent
        only_if_absolute h
  refine ⟨key, ?_⟩
  intro mode h
  cases mode
  · refine key false false ?_
    rcases h with h | h | h | h | h | h
    · exact Or.inl h
    · exact Or.inr (Or.inl h)
    · exact absurd h.1 (by decide)
    · exact Or.inr (Or.inr (Or.inr (Or.inl h)))
    · exact Or.inr (Or.inr (Or.inr (Or.inr (Or.inl h))))
    · exact Or.inr (Or.inr (Or.inr (Or.inr (Or.inr h))))
  · refine key false true ?_
    rcases h with h | h | h | h | h | h
    · exact Or.inl h
    · exact Or.inr (Or.inl h)
    · exact Or.inr (Or.inr (Or.inl ⟨rfl, h.2⟩))
    · exact Or.inr (Or.inr (Or.inr (Or.inl h)))
    · exact Or.inr (Or.inr (Or.inr (Or.inr (Or.inl h))))
    · exact Or.inr (Or.inr (Or.inr (Or.inr (Or.inr h))))
  · refine key true false ?_
    rcases h with h | h | h | h | h | h
    · exact Or.inl h
    · exact Or.inr (Or.inl h)
    · exact absurd h.1 (by decide)
    · exact Or.inr (Or.inr (Or.inr (Or.inl h)))
    · exact Or.inr (Or.inr (Or.inr (Or.inr (Or.inl h))))
    · exact Or.inr (Or.inr (Or.inr (Or.inr (Or.inr h))))

theorem redirect_unchanged_witness :
    redirect_path_full (Initializer exampleEnv) "/dev/shm/snap.skype.foo".toList false false
        = some "/dev/shm/snap.skype.foo".toList
    ∧ RedirectType.ABSOLUTE_REDIRECT.redirect (Initializer exampleEnv) "dev/shm/foo".toList
        = some "dev/shm/foo".toList :=
  ⟨(redirect_unchanged exampleEnv "/dev/shm/snap.skype.foo".toList).1 false false
      (Or.inr (Or.inr (Or.inr (Or.inr (Or.inr (by decide)))))),
   (redirect_unchanged exampleEnv "dev/shm/foo".toList).2 RedirectType.ABSOLUTE_REDIRECT
      (Or.inr (Or.inr (Or.inl ⟨rfl, by decide⟩)))⟩

/-- C3 (legacy rule). With a non-empty saved `SNAPCRAFT_PRELOAD`, for every
suffix (the empty one too), every `SNAP_NAME`, both values of each flag and
each of the three redirect modes, `"/dev/shm/.org.chromium.Chromium." ++ suffix`
is redirected to exactly `"/dev/shm/snap.skype.xx.Chromium." ++ suffix`, a
path of the same length. -/
theorem redirect_legacy (secure_getenv : Str → Option Str) (suffix : Str)
    (hctx : (Initializer secure_getenv).saved_snapcraft_preload ≠ []) :
    (∀ check_parent only_if_absolute : Bool,
      redirect_path_full (Initializer secure_getenv)
          ("/dev/shm/.org.chromium.Chromium.".toList ++ suffix) check_parent only_if_absolute
        = some ("/dev/shm/snap.skype.xx.Chromium.".toList ++ suffix))
    ∧ (∀ mode : RedirectType,
      mode.redirect (Initializer secure_getenv)
          ("/dev/shm/.org.chromium.Chromium.".toList ++ suffix)
        = some ("/dev/shm/snap.skype.xx.Chromium.".toList ++ suffix))
    ∧ ("/dev/shm/snap.skype.xx.Chromium.".toList ++ suffix).length
        = ("/dev/shm/.org.chromium.Chromium.".toList ++ suffix).length := by
  have key : ∀ check_parent only_if_absolute : Bool,
      redirect_path_full (Initializer secure_getenv)
          ("/dev/shm/.org.chromium.Chromium.".toList ++ suffix) check_parent only_if_absolute
        = some ("/dev/shm/snap.skype.xx.Chromium.".toList ++ suffix) :=
    fun check_parent only_if_absolute =>
      redirect_path_full_legacy (Initializer secure_getenv) suffix check_parent only_if_absolute
        hctx (legacy_not_under_snap _ suffix)
  refine ⟨key, ?_, ?_⟩
  · intro mode
    cases mode
    · exact key false false
    · exact key false true
    · exact key true false
  · simp only [List.length_append]
    rfl

theorem redirect_legacy_witness :
    redirect_path_full (Initializer exampleEnv)
        "/dev/shm/.org.chromium.Chromium.XXXXXX".toList false false
      = some "/dev/shm/snap.skype.xx.Chromium.XXXXXX".toList :=
  (redirect_legacy exampleEnv "XXXXXX".toList (by decide)).1 false false

theorem string_length_sanitize_length_le (path : Str) :
    (string_length_sanitize path).length ≤ PATH_MAX := by
  unfold string_length_sanitize
  split_ifs with h
  · rw [List.length_take]; exact min_le_left _ _
  · exact le_of_lt (not_le.mp h)

/-- C7, as the claim states it, fails on the legacy rule: a path of 4097
characters with the legacy prefix, strictly under `"/dev/shm/"` and not under
the sandbox subpath, is returned with 4097 characters. -/
theorem redirect_truncation_legacy_counterexample :
    (Initializer exampleEnv).saved_snapcraft_preload ≠ []
    ∧ "/dev/shm/".toList <+: "/dev/shm/.org.chromium.Chromium.".toList ++ List.replicate 4065 'a'
    ∧ "/dev/shm/.org.chromium.Chromium.".toList ++ List.replicate 4065 'a' ≠ "/dev/shm/".toList
    ∧ ¬ "/dev/shm/snap.skype".toList
        <+: "/dev/shm/.org.chromium.Chromium.".toList ++ List.replicate 4065 'a'
    ∧ redirect_path_full (Initializer exampleEnv)
          ("/dev/shm/.org.chromium.Chromium.".toList ++ List.replicate 4065 'a') false false
        = some ("/dev/shm/snap.skype.xx.Chromium.".toList ++ List.replicate 4065 'a')
    ∧ PATH_MAX < ("/dev/shm/snap.skype.xx.Chromium.".toList ++ List.replicate 4065 'a').length := by
  have h32 : "/dev/shm/.org.chromium.Chromium.".toList.length = 32 := by decide
  have h32s : "/dev/shm/snap.skype.xx.Chromium.".toList.length = 32 := by decide
  have h9 : "/dev/shm/".toList.length = 9 := by decide
  refine ⟨by decide, ?_, ?_, ?_, ?_, ?_⟩
  · exact (show "/dev/shm/".toList <+: "/dev/shm/.org.chromium.Chromium.".toList by
      decide).trans (List.prefix_append _ _)
  · intro h
    have hl := congrArg List.length h
    rw [List.length_append, List.length_replicate, h32, h9] at hl
    omega
  · exact legacy_not_under_snap "skype".toList (List.replicate 4065 'a')
  · exact redirect_path_full_legacy (Initializer exampleEnv) (List.replicate 4065 'a') false false
      (by decide) (legacy_not_under_snap "skype".toList (List.replicate 4065 'a'))
  · rw [List.length_append, List.length_replicate, h32s]
    decide

/-- C7 (truncation), amended. With a non-empty saved `SNAPCRAFT_PRELOAD`, for
every path `"/dev/shm/" ++ X` with `X` non-empty that is not under the sandbox
subpath: when the path does not begin with the legacy prefix, the result of
`redirect_path_full` has at most `PATH_MAX` characters, is the first
`PATH_MAX` characters of `"/dev/shm/snap.<SNAP_NAME>." ++ X` when that string
is longer than `PATH_MAX`, and is that string otherwise; when the path begins
with the legacy prefix, the result has the length of the path, whatever it is. -/
theorem redirect_truncation (secure_getenv : Str → Option Str) (X : Str)
    (check_parent only_if_absolute : Bool)
    (hctx : (Initializer secure_getenv).saved_snapcraft_preload ≠ [])
    (hX : X ≠ [])
    (hsub : ¬ ("/dev/shm/snap.".toList ++ getenv_string secure_getenv "SNAP_NAME".toList)
      <+: "/dev/shm/".toList ++ X) :
    (¬ "/dev/shm/.org.chromium.Chromium.".toList <+: "/dev/shm/".toList ++ X →
      ∃ r, redirect_path_full (Initializer secure_getenv) ("/dev/shm/".toList ++ X)
            check_parent only_if_absolute = some r
        ∧ r.length ≤ PATH_MAX
        ∧ (PATH_MAX < ("/dev/shm/snap.".toList ++ getenv_string secure_getenv "SNAP_NAME".toList
              ++ ".".toList ++ X).length →
            r = ("/dev/shm/snap.".toList ++ getenv_string secure_getenv "SNAP_NAME".toList
              ++ ".".toList ++ X).take PATH_MAX)
        ∧ (("/dev/shm/snap.".toList ++ getenv_string secure_getenv "SNAP_NAME".toList
              ++ ".".toList ++ X).length ≤ PATH_MAX →
            r = "/dev/shm/snap.".toList ++ getenv_string secure_getenv "SNAP_NAME".toList
              ++ ".".toList ++ X))
    ∧ ("/dev/shm/.org.chromium.Chromium.".toList <+: "/dev/shm/".toList ++ X →
      ∃ r, redirect_path_full (Initializer secure_getenv) ("/dev/shm/".toList ++ X)
            check_parent only_if_absolute = some r
        ∧ r.length = ("/dev/shm/".toList ++ X).length) := by
  constructor
  · intro hlegacy
    refine ⟨_, redirect_path_full_reroot (Initializer secure_getenv) X check_parent
      only_if_absolute hctx hX hsub hlegacy, string_length_sanitize_length_le _, ?_, ?_⟩
    · intro hlong
      unfold string_length_sanitize
      exact if_pos (le_of_lt hlong)
    · intro hshort
      unfold string_length_sanitize
      split_ifs with h
      · exact List.take_of_length_le (le_trans hshort (le_refl _))
      · rfl
  · rintro ⟨suffix, hs⟩
    rw [← hs] at hsub ⊢
    refine ⟨_, redirect_path_full_legacy (Initializer secure_getenv) suffix check_parent
      only_if_absolute hctx hsub, ?_⟩
    simp only [List.length_append]
    rfl

theorem redirect_truncation_witness :
    ∃ r, redirect_path_full (Initializer exampleEnv)
          ("/dev/shm/".toList ++ List.replicate 5000 'a') false false = some r
      ∧ r.length ≤ PATH_MAX
      ∧ r = ("/dev/shm/snap.skype.".toList ++ List.replicate 5000 'a').take PATH_MAX := by
  obtain ⟨r, h1, h2, h3, -⟩ :=
    (redirect_truncation exampleEnv (List.replicate 5000 'a') false false (by decide) (by decide)
      (by decide)).1 (by decide)
  refine ⟨r, h1, h2, h3 ?_⟩
  rw [List.length_append, List.length_replicate]
  decide

/-! ## The interception templates: claims -/

/-- Function `redirect_path_full` throws nothing: it returns a path for every input. -/
theorem redirect_path_full_total (ctx : Context) (pathname : Str)
    (check_parent only_if_absolute : Bool) :
    ∃ r, redirect_path_full ctx pathname check_parent only_if_absolute = some r := by
  unfold redirect_path_full
  simp only [str_starts_with_eq_decide]
  split_ifs with h1 h2 h3 h4 h5
  · exact ⟨_, rfl⟩
  · exact ⟨_, rfl⟩
  · exact ⟨_, rfl⟩
  · exact ⟨_, by unfold replace; rw [if_neg (Nat.not_lt_zero _)]⟩
  · simp only [Bool.and_eq_true, decide_eq_true_eq] at h4
    have hle : ¬ (DEFAULT_DEVSHM.length > pathname.length) := not_lt.mpr h4.1.1.length_le
    exact ⟨_, by unfold substr; rw [if_neg hle]; rfl⟩
  · exact ⟨_, rfl⟩

theorem RedirectType.redirect_total (mode : RedirectType) (ctx : Context) (pathname : Str) :
    ∃ r, mode.redirect ctx pathname = some r := by
  cases mode
  · exact redirect_path_full_total ctx pathname false false
  · exact redirect_path_full_total ctx pathname false true
  · exact redirect_path_full_total ctx pathname true false

/-- The flag `check_parent` is not read: the target mode and the plain mode
compute the same path. -/
theorem redirect_path_target_eq (ctx : Context) (pathname : Str) :
    redirect_path_target ctx pathname = redirect_path ctx pathname := rfl

theorem redirect_empty (mode : RedirectType) (ctx : Context) : mode.redirect ctx [] = some [] := by
  cases mode <;> rfl

/-- C6 (buffer safety of `mkstemp`, `mkstemp64`). For every caller array
`mem` and every context, the redirection of the C string in `mem` is some
path `new_path`; if `new_path` is strictly longer than that C string,
`redirect_n_nonconst_path` calls the underlying operation on the caller's
array itself, with its original bytes, and the final bytes of the array are
the ones the operation left; otherwise the operation is called on a copy of
`new_path`, and the copy-back (`strncpy` of what the operation left in the
copy) leaves the array with its length and with every byte from position
`strlen mem` on unchanged. -/
theorem nonconst_path_buffer_safety {α β R : Type} (ctx : Context)
    (REDIRECT_PATH_TYPE : RedirectType) (func : α → Option Mem → β → R × Mem) (pre : α)
    (mem : Mem) (post : β) :
    ∃ new_path, REDIRECT_PATH_TYPE.redirect ctx (c_string mem) = some new_path
      ∧ (strlen mem < new_path.length →
          redirect_n_nonconst_path ctx REDIRECT_PATH_TYPE func pre (some mem) post
            = some ((func pre (some mem) post).1, some (func pre (some mem) post).2))
      ∧ (new_path.length ≤ strlen mem →
          ∃ final, redirect_n_nonconst_path ctx REDIRECT_PATH_TYPE func pre (some mem) post
              = some ((func pre (some (strdup new_path)) post).1, some final)
            ∧ final = strncpy mem (func pre (some (strdup new_path)) post).2 (strlen mem)
            ∧ final.length = mem.length
            ∧ final.drop (strlen mem) = mem.drop (strlen mem)) := by
  obtain ⟨new_path, hnew⟩ := REDIRECT_PATH_TYPE.redirect_total ctx (c_string mem)
  refine ⟨new_path, hnew, ?_, ?_⟩
  · intro hlong
    simp only [redirect_n_nonconst_path, hnew, Option.bind_eq_bind, Option.some_bind,
      if_neg (not_le.mpr hlong)]
  · intro hfit
    refine ⟨strncpy mem (func pre (some (strdup new_path)) post).2 (strlen mem), ?_, rfl, ?_, ?_⟩
    · simp only [redirect_n_nonconst_path, hnew, Option.bind_eq_bind, Option.some_bind,
        if_pos hfit]
    · have hn : strlen mem ≤ mem.length := by
        unfold strlen c_string
        exact (List.takeWhile_prefix _).length_le
      simp only [strncpy, List.length_append, List.length_replicate, List.length_take,
        List.length_drop]
      omega
    · have hlen : ((c_string (func pre (some (strdup new_path)) post).2).take (strlen mem)
          ++ List.replicate (strlen mem
              - ((c_string (func pre (some (strdup new_path)) post).2).take (strlen mem)).length)
            NUL).length = strlen mem := by
        simp only [List.length_append, List.length_replicate, List.length_take]
        omega
      unfold strncpy
      rw [List.drop_append_of_le_length (le_of_eq hlen.symm), List.drop_of_length_le
        (le_of_eq hlen), List.nil_append]

theorem nonconst_path_buffer_safety_witness :
    redirect_n_nonconst_path (Initializer exampleEnv) RedirectType.NORMAL_REDIRECT exampleMkstemp
        () (some ("/dev/shm/fooXXXXXX".toList ++ [NUL])) ()
      = some (3, some ("/dev/shm/fooabc123".toList ++ [NUL]))
    ∧ redirect_n_nonconst_path (Initializer exampleEnv) RedirectType.NORMAL_REDIRECT
        exampleMkstemp () (some ("/dev/shm/.org.chromium.Chromium.XXXXXX".toList ++ [NUL])) ()
      = some (3, some ("/dev/shm/snap.skype.xx.Chromium.abc123".toList ++ [NUL])) := by
  constructor
  · obtain ⟨new_path, h1, h2, -⟩ := nonconst_path_buffer_safety (Initializer exampleEnv)
      RedirectType.NORMAL_REDIRECT exampleMkstemp () ("/dev/shm/fooXXXXXX".toList ++ [NUL]) ()
    have e : new_path = "/dev/shm/snap.skype.fooXXXXXX".toList :=
      Option.some.inj (h1.symm.trans (by decide))
    subst e
    exact h2 (by decide)
  · obtain ⟨new_path, h1, -, h3⟩ := nonconst_path_buffer_safety (Initializer exampleEnv)
      RedirectType.NORMAL_REDIRECT exampleMkstemp ()
      ("/dev/shm/.org.chromium.Chromium.XXXXXX".toList ++ [NUL]) ()
    have e : new_path = "/dev/shm/snap.skype.xx.Chromium.XXXXXX".toList :=
      Option.some.inj (h1.symm.trans (by decide))
    subst e
    obtain ⟨final, f1, f2, -, -⟩ := h3 (by decide)
    rw [f1, f2]
    decide

/-- C8 (two-path operations `link`, `rename`). For every non-null source and
target and every context, the plain redirection of the source and the
target-of-link redirection of the target are some paths `new_source` and
`new_target`, each fixed by its own argument and the context alone, and for
every underlying operation `func`, `redirect_target` returns exactly the
result of `func` on `(new_source, new_target)`. -/
theorem link_rename_two_paths (ctx : Context) (source target : Str) :
    ∃ new_source new_target,
      RedirectType.NORMAL_REDIRECT.redirect ctx source = some new_source
      ∧ RedirectType.TARGET_REDIRECT.redirect ctx target = some new_target
      ∧ ∀ (R : Type) (func : Option Str → Option Str → R),
          redirect_target ctx RedirectType.NORMAL_REDIRECT RedirectType.TARGET_REDIRECT func
              (some source) (some target)
            = some (func (some new_source) (some new_target)) := by
  obtain ⟨new_source, hs⟩ := RedirectType.NORMAL_REDIRECT.redirect_total ctx source
  obtain ⟨new_target, ht⟩ := RedirectType.NORMAL_REDIRECT.redirect_total ctx target
  refine ⟨new_source, new_target, hs, ?_, ?_⟩
  · exact ht
  · intro R func
    simp only [redirect_target, redirect_n, ht, hs, Option.bind_eq_bind, Option.some_bind]

/-- C9, as the claim states it, fails for a null target of `link` and
`rename`: with an empty context, a non-null source and a null target, the
underlying operation receives the empty string, not null, as its target. -/
theorem null_target_counterexample :
    redirect_target (Initializer emptyEnv) RedirectType.NORMAL_REDIRECT
        RedirectType.TARGET_REDIRECT (fun p t => (p, t)) (some "/tmp/a".toList) none
      = some (some "/tmp/a".toList, some [])
    ∧ redirect_target (Initializer emptyEnv) RedirectType.NORMAL_REDIRECT
        RedirectType.TARGET_REDIRECT (fun p t => (p, t)) (some "/tmp/a".toList) none
      ≠ some (some "/tmp/a".toList, none) := by
  constructor <;> decide

/-- C9 (null pathname arguments), amended. For every context: a null
pathname reaches the underlying operation as null, with every other argument
as the caller passed it, in `redirect_n`, in `redirect_n_nonconst_path` and
in `execve_wrapper` (where `envp` is passed through untouched); in
`redirect_target` a null source reaches the underlying operation as null
while the target it receives is the redirection of the caller's target, and
a null target reaches it as the empty string `""`, not as null, whatever the
source is (a null source staying null). -/
theorem null_path_forwarding (ctx : Context) :
    (∀ (α β R : Type) (mode : RedirectType) (func : α → Option Str → β → R) (pre : α) (post : β),
      redirect_n ctx mode func pre none post = some (func pre none post))
    ∧ (∀ (α β R : Type) (mode : RedirectType) (func : α → Option Mem → β → R × Mem) (pre : α)
        (post : β),
      redirect_n_nonconst_path ctx mode func pre none post
        = some ((func pre none post).1, none))
    ∧ (∀ (A R : Type) (_execve : Option Str → A → Option (List Str) → R) (argv : A)
        (envp : Option (List Str)),
      execve_wrapper ctx _execve none argv envp = some (_execve none argv envp))
    ∧ (∀ target : Str, ∃ new_target,
        RedirectType.NORMAL_REDIRECT.redirect ctx target = some new_target
        ∧ ∀ (R : Type) (func : Option Str → Option Str → R),
            redirect_target ctx RedirectType.NORMAL_REDIRECT RedirectType.TARGET_REDIRECT func
              none (some target) = some (func none (some new_target)))
    ∧ (∀ (R : Type) (func : Option Str → Option Str → R),
        redirect_target ctx RedirectType.NORMAL_REDIRECT RedirectType.TARGET_REDIRECT func
          none none = some (func none (some [])))
    ∧ (∀ source : Str, ∃ new_source,
        RedirectType.NORMAL_REDIRECT.redirect ctx source = some new_source
        ∧ ∀ (R : Type) (func : Option Str → Option Str → R),
            redirect_target ctx RedirectType.NORMAL_REDIRECT RedirectType.TARGET_REDIRECT func
              (some source) none = some (func (some new_source) (some []))) := by
  refine ⟨fun _ _ _ _ _ _ _ => rfl, fun _ _ _ _ _ _ _ => rfl, fun _ _ _ _ _ => rfl, ?_, ?_, ?_⟩
  · intro target
    obtain ⟨new_target, ht⟩ := RedirectType.NORMAL_REDIRECT.redirect_total ctx target
    refine ⟨new_target, ht, ?_⟩
    intro R func
    simp only [redirect_target, redirect_n, ht, Option.bind_eq_bind, Option.some_bind]
  · intro R func
    simp only [redirect_target, redirect_n, redirect_empty, Option.bind_eq_bind,
      Option.some_bind]
  · intro source
    obtain ⟨new_source, hp⟩ := RedirectType.NORMAL_REDIRECT.redirect_total ctx source
    refine ⟨new_source, hp, ?_⟩
    intro R func
    simp only [redirect_target, redirect_n, redirect_empty, hp, Option.bind_eq_bind,
      Option.some_bind]

/-- C10: `redirect_open` at the flags `O_RDONLY | O_DIRECTORY` on Linux. The
test `flags & (O_CREAT | O_TMPFILE)` is non-zero, because `O_TMPFILE`
contains the bit `O_DIRECTORY`: the code consumes a variadic argument. When
the caller passed none the behaviour is undefined; when a value `m` is there,
it is consumed and forwarded as the mode, whatever it is, in place of 0. -/
theorem redirect_open_O_DIRECTORY_consumes_mode {α R : Type} (ctx : Context)
    (mode : RedirectType) (func : α → Option Str → Nat → Nat → R) (pre : α) (path : Str) :
    redirect_open Fcntl.linux ctx mode func pre (some path) (O_RDONLY ||| O_DIRECTORY) [] = none
    ∧ ∀ (m : Nat) (rest : List Nat), ∃ new_path, mode.redirect ctx path = some new_path
        ∧ redirect_open Fcntl.linux ctx mode func pre (some path) (O_RDONLY ||| O_DIRECTORY)
            (m :: rest)
          = some (func pre (some new_path) (O_RDONLY ||| O_DIRECTORY) m, rest) := by
  have hflags : (O_RDONLY ||| O_DIRECTORY) &&& (Fcntl.linux.O_CREAT ||| Fcntl.linux.O_TMPFILE) ≠ 0 := by
    decide
  constructor
  · simp only [redirect_open, if_pos hflags, va_arg, Option.bind_eq_bind, Option.none_bind]
  · intro m rest
    obtain ⟨new_path, hp⟩ := mode.redirect_total ctx path
    refine ⟨new_path, hp, ?_⟩
    simp only [redirect_open, if_pos hflags, va_arg, redirect_n, hp, Option.bind_eq_bind,
      Option.some_bind]


/-! ## `std::getline` loops -/

theorem getlines_nil (delim : Char) : getlines [] delim = [] := by
  rw [getlines]
  rfl

theorem getlines_unfold (c : Char) (cs : Str) (delim : Char) :
    getlines (c :: cs) delim
      = (c :: cs).takeWhile (fun x => x != delim)
        :: getlines (((c :: cs).dropWhile (fun x => x != delim)).drop 1) delim := by
  rw [getlines]
  rfl

/-- Character by character: a delimiter closes the current string, any
other character is put in front of it. -/
theorem getlines_cons (c : Char) (cs : Str) (delim : Char) :
    getlines (c :: cs) delim
      = if c = delim then [] :: getlines cs delim
        else match getlines cs delim with
          | [] => [[c]]
          | t :: ts => (c :: t) :: ts := by
  rw [getlines_unfold]
  by_cases h : c = delim
  · subst h
    simp
  · have hb : (c != delim) = true := by simpa using h
    simp only [h, if_false, List.takeWhile_cons, hb, if_true, List.dropWhile_cons]
    cases cs with
    | nil => simp [getlines_nil]
    | cons c2 r => rw [getlines_unfold]

theorem getlines_cons_ne_nil (c : Char) (cs : Str) (delim : Char) :
    getlines (c :: cs) delim ≠ [] := by
  rw [getlines_unfold]
  exact List.cons_ne_nil _ _

/-- No string read by the loop holds the delimiter. -/
theorem getlines_no_delim (s : Str) (delim : Char) : ∀ t ∈ getlines s delim, delim ∉ t := by
  induction s with
  | nil => simp [getlines_nil]
  | cons c cs ih =>
    rw [getlines_cons]
    by_cases h : c = delim
    · simp only [h, if_true]
      intro t ht
      rcases List.mem_cons.mp ht with rfl | ht
      · simp
      · exact ih t ht
    · simp only [h, if_false]
      cases hg : getlines cs delim with
      | nil =>
        intro t ht
        rw [List.mem_singleton] at ht
        subst ht
        simpa using fun h2 => h h2.symm
      | cons t ts =>
        rw [hg] at ih
        intro u hu
        rcases List.mem_cons.mp hu with rfl | hu
        · intro hmem
          rcases List.mem_cons.mp hmem with h2 | h2
          · exact h h2.symm
          · exact ih t (List.mem_cons_self _ _) h2
        · exact ih u (List.mem_cons_of_mem _ hu)

/-- A non-empty string without the delimiter is read in one piece. -/
theorem getlines_single (p : Str) (delim : Char) (hp : p ≠ []) (hd : delim ∉ p) :
    getlines p delim = [p] := by
  induction p with
  | nil => exact absurd rfl hp
  | cons c cs ih =>
    have hc : c ≠ delim := fun h => hd (h ▸ List.mem_cons_self _ _)
    rw [getlines_cons, if_neg hc]
    cases cs with
    | nil => simp [getlines_nil]
    | cons c2 r =>
      rw [ih (List.cons_ne_nil _ _) (fun h => hd (List.mem_cons_of_mem _ h))]

/-- Appending a delimiter and a string `p` without delimiter adds `p` as the
last string read, after at most one empty string. -/
theorem getlines_append (v p : Str) (delim : Char) (hp : p ≠ []) (hd : delim ∉ p) :
    ∃ e, (e = [] ∨ e = [[]])
      ∧ getlines (v ++ delim :: p) delim = getlines v delim ++ e ++ [p] := by
  induction v with
  | nil =>
    refine ⟨[[]], Or.inr rfl, ?_⟩
    rw [List.nil_append, getlines_cons, if_pos rfl, getlines_single p delim hp hd, getlines_nil]
    rfl
  | cons c cs ih =>
    obtain ⟨e, he, ih⟩ := ih
    rw [List.cons_append, getlines_cons, getlines_cons]
    by_cases h : c = delim
    · refine ⟨e, he, ?_⟩
      simp only [h, if_true, ih, List.cons_append]
    · simp only [h, if_false]
      cases cs with
      | nil =>
        refine ⟨[], Or.inl rfl, ?_⟩
        rw [List.nil_append, getlines_cons, if_pos rfl, getlines_single p delim hp hd,
          getlines_nil]
        rfl
      | cons c2 r =>
        refine ⟨e, he, ?_⟩
        rw [ih]
        cases hg : getlines (c2 :: r) delim with
        | nil => exact absurd hg (getlines_cons_ne_nil _ _ _)
        | cons t ts => rfl

/-- The strings the loop reads are the pieces of `List.splitOn`, except for
a last empty piece. -/
theorem getlines_splitOn (s : Str) (delim : Char) :
    ∃ e, (e = [] ∨ e = [[]]) ∧ s.splitOn delim = getlines s delim ++ e := by
  induction s with
  | nil => exact ⟨[[]], Or.inr rfl, by rw [getlines_nil]; rfl⟩
  | cons c cs ih =>
    obtain ⟨e, he, ih⟩ := ih
    unfold List.splitOn at ih ⊢
    rw [List.splitOnP_cons, getlines_cons]
    by_cases h : c = delim
    · refine ⟨e, he, ?_⟩
      simp only [h, beq_self_eq_true, if_true, ih, List.cons_append]
    · have hb : (c == delim) = false := by simpa using h
      simp only [h, hb, if_false, Bool.false_eq_true]
      cases cs with
      | nil =>
        refine ⟨[], Or.inl rfl, ?_⟩
        rw [getlines_nil]
        rfl
      | cons c2 r =>
        refine ⟨e, he, ?_⟩
        rw [ih]
        cases hg : getlines (c2 :: r) delim with
        | nil => exact absurd hg (getlines_cons_ne_nil _ _ _)
        | cons t ts => rfl

theorem mem_splitOn_of_mem_getlines {s : Str} {delim : Char} {t : Str}
    (h : t ∈ getlines s delim) : t ∈ s.splitOn delim := by
  obtain ⟨e, -, he⟩ := getlines_splitOn s delim
  rw [he]
  exact List.mem_append_left _ h

theorem mem_getlines_of_mem_splitOn {s : Str} {delim : Char} {t : Str} (ht : t ≠ [])
    (h : t ∈ s.splitOn delim) : t ∈ getlines s delim := by
  obtain ⟨e, he1, he⟩ := getlines_splitOn s delim
  rw [he] at h
  rcases List.mem_append.mp h with h | h
  · exact h
  · rcases he1 with rfl | rfl
    · exact absurd h (List.not_mem_nil _)
    · exact absurd (List.mem_singleton.mp h) ht

theorem mem_getlines_append {v p q : Str} {delim : Char} (hp : p ≠ []) (hd : delim ∉ p)
    (hq : q ≠ []) :
    q ∈ getlines (v ++ delim :: p) delim ↔ q ∈ getlines v delim ∨ q = p := by
  obtain ⟨e, he1, he⟩ := getlines_append v p delim hp hd
  rw [he]
  simp only [List.mem_append, List.mem_singleton]
  constructor
  · rintro ((h | h) | h)
    · exact Or.inl h
    · rcases he1 with rfl | rfl
      · exact absurd h (List.not_mem_nil _)
      · exact absurd (List.mem_singleton.mp h) hq
    · exact Or.inr h
  · rintro (h | h)
    · exact Or.inl (Or.inl h)
    · exact Or.inr h

/-! ## `ensure_in_ld_preload` and `execve_copy_envp` -/

theorem ensure_scan_eq (to_be_added : Str) (toks : List Str) (found : Bool) :
    ensure_in_ld_preload.scan to_be_added toks found = (found || decide (to_be_added ∈ toks)) := by
  induction toks generalizing found with
  | nil => simp [ensure_in_ld_preload.scan]
  | cons p ps ih =>
    cases found
    · by_cases h : p = to_be_added
      · simp [ensure_in_ld_preload.scan, ih, h]
      · have h2 : ¬ to_be_added = p := fun e => h e.symm
        simp [ensure_in_ld_preload.scan, ih, h, h2]
    · simp [ensure_in_ld_preload.scan]

theorem ensure_in_ld_preload_nil (to_be_added : Str) :
    ensure_in_ld_preload [] to_be_added = some (LD_PRELOAD ++ ['='] ++ to_be_added) := rfl

/-- On an entry `"LD_PRELOAD=" ++ v` nothing is thrown: the entry is kept when
`std::getline` reads the path from `v`, and gets `":" ++ to_be_added` at its
end otherwise. -/
theorem ensure_in_ld_preload_entry (v to_be_added : Str) :
    ensure_in_ld_preload (LD_PRELOAD ++ ['='] ++ v) to_be_added
      = some (if to_be_added ∈ getlines v ':' then LD_PRELOAD ++ ['='] ++ v
          else LD_PRELOAD ++ ['='] ++ (v ++ ':' :: to_be_added)) := by
  have h1 : (LD_PRELOAD ++ ['='] ++ v).isEmpty = false := rfl
  have h2 : substr (LD_PRELOAD ++ ['='] ++ v) (LD_PRELOAD.length + 1) = some v := by
    unfold substr
    have hl : LD_PRELOAD.length + 1 = (LD_PRELOAD ++ ['=']).length := rfl
    rw [if_neg (by simp only [List.length_append, List.length_singleton]; omega), hl,
      List.drop_left]
  unfold ensure_in_ld_preload
  simp only [h1, h2, ensure_scan_eq, Bool.not_false, if_true, Option.bind_eq_bind,
    Option.some_bind, Bool.false_or]
  by_cases h : to_be_added ∈ getlines v ':'
  · simp [h]
  · simp [h]

theorem appendPaths_append (a s : Str) (paths : List Str) :
    a ++ appendPaths s paths = appendPaths (a ++ s) paths := by
  induction paths generalizing s with
  | nil => rfl
  | cons p ps ih =>
    simp only [appendPaths, List.foldl_cons] at ih ⊢
    rw [ih, List.append_assoc]

/-- The loop of `execve_copy_envp` over the saved paths, started on an entry
`"LD_PRELOAD=" ++ v`. -/
theorem foldlM_ensure_in_ld_preload (ps : List Str) (hgood : ∀ p ∈ ps, p ≠ [] ∧ ':' ∉ p)
    (v : Str) (listed : List Str)
    (hinv : ∀ q : Str, q ≠ [] → (q ∈ getlines v ':' ↔ q ∈ listed)) :
    ps.foldlM ensure_in_ld_preload (LD_PRELOAD ++ ['='] ++ v)
        = some (LD_PRELOAD ++ ['='] ++ appendPaths v (pathsToAppend listed ps))
    ∧ (∀ t ∈ getlines v ':', t ≠ [] →
        t ∈ getlines (appendPaths v (pathsToAppend listed ps)) ':')
    ∧ ∀ p ∈ ps, p ∈ getlines (appendPaths v (pathsToAppend listed ps)) ':' := by
  induction ps generalizing v listed with
  | nil => exact ⟨rfl, fun t ht _ => ht, fun p hp => absurd hp (List.not_mem_nil _)⟩
  | cons p ps ih =>
    obtain ⟨hp1, hp2⟩ := hgood p (List.mem_cons_self _ _)
    have hgood2 : ∀ q ∈ ps, q ≠ [] ∧ ':' ∉ q := fun q hq => hgood q (List.mem_cons_of_mem _ hq)
    rw [List.foldlM_cons, ensure_in_ld_preload_entry]
    by_cases h : p ∈ getlines v ':'
    · have hl : p ∈ listed := (hinv p hp1).mp h
      obtain ⟨i1, i2, i3⟩ := ih hgood2 v listed hinv
      simp only [h, hl, if_true, pathsToAppend, Option.bind_eq_bind, Option.some_bind]
      refine ⟨i1, i2, ?_⟩
      intro q hq
      rcases List.mem_cons.mp hq with rfl | hq
      · exact i2 _ h hp1
      · exact i3 q hq
    · have hl : p ∉ listed := fun hl => h ((hinv p hp1).mpr hl)
      have hinv2 : ∀ q : Str, q ≠ [] → (q ∈ getlines (v ++ ':' :: p) ':' ↔ q ∈ p :: listed) := by
        intro q hq
        rw [mem_getlines_append hp1 hp2 hq, List.mem_cons, hinv q hq]
        exact or_comm
      obtain ⟨i1, i2, i3⟩ := ih hgood2 (v ++ ':' :: p) (p :: listed) hinv2
      have hap : appendPaths v (p :: pathsToAppend (p :: listed) ps)
          = appendPaths (v ++ ':' :: p) (pathsToAppend (p :: listed) ps) := rfl
      simp only [h, hl, if_false, pathsToAppend, Option.bind_eq_bind, Option.some_bind, hap]
      refine ⟨i1, ?_, ?_⟩
      · intro t ht hne
        exact i2 t ((mem_getlines_append hp1 hp2 hne).mpr (Or.inl ht)) hne
      · intro q hq
        rcases List.mem_cons.mp hq with rfl | hq
        · exact i2 _ ((mem_getlines_append hp1 hp2 hp1).mpr (Or.inr rfl)) hp1
        · exact i3 q hq

theorem foldl_push_if {β : Type} (P : β → Bool) (l init : List β) :
    l.foldl (fun saved p => if P p then saved ++ [p] else saved) init = init ++ l.filter P := by
  induction l generalizing init with
  | nil => simp
  | cons x xs ih =>
    rw [List.foldl_cons, ih]
    by_cases h : P x = true
    · simp [h, List.filter_cons]
    · simp [h, List.filter_cons]

/-- Every path the initializer saves is a string `std::getline` read from
`LD_PRELOAD` that ends in `"/libsnapcraft-preload.so"`: it is non-empty and
holds no colon. -/
theorem saved_ld_preloads_good (secure_getenv : Str → Option Str) :
    ∀ p ∈ (Initializer secure_getenv).saved_ld_preloads, p ≠ [] ∧ ':' ∉ p := by
  intro p hp
  have hp2 : p ∈ [] ++ (getlines (getenv_string secure_getenv LD_PRELOAD) ':').filter
      (fun q => str_ends_with q ("/".toList ++ SNAPCRAFT_LIBNAME_DEF)) := by
    rw [← foldl_push_if]
    exact hp
  rw [List.nil_append, List.mem_filter] at hp2
  obtain ⟨h1, h2⟩ := hp2
  refine ⟨?_, getlines_no_delim _ _ p h1⟩
  rintro rfl
  exact absurd h2 (by decide)

theorem copy_loop_eq (es : List Str) (ld0 : Str) (acc : List Str) :
    es.foldl
        (fun (st : Str × List Str) env =>
          (if str_starts_with env (LD_PRELOAD ++ ['=']) then env else st.1, st.2 ++ [env]))
        (ld0, acc)
      = (es.foldl (fun ld env => if str_starts_with env (LD_PRELOAD ++ ['=']) then env else ld)
          ld0, acc ++ es) := by
  induction es generalizing ld0 acc with
  | nil => simp
  | cons e es ih =>
    rw [List.foldl_cons, List.foldl_cons, ih]
    simp

/-- The shape of the environment `execve_copy_envp` builds, once the loop
over the saved paths has given `merged`. -/
theorem execve_copy_envp_of_merged (ctx : Context) (envp : Option (List Str)) (merged : Str)
    (h : ctx.saved_ld_preloads.foldlM ensure_in_ld_preload (lastLdPreload (envp.getD []))
      = some merged) :
    execve_copy_envp ctx envp
      = some (envp.getD [] ++ (if ctx.saved_ld_preloads = [] then [] else [merged])
          ++ (if ctx.saved_snapcraft_preload = [] then []
              else [SNAPCRAFT_PRELOAD ++ ['='] ++ ctx.saved_snapcraft_preload])) := by
  unfold lastLdPreload at h
  unfold execve_copy_envp
  cases envp with
  | none =>
    simp only [Option.getD_none] at h ⊢
    rw [copy_loop_eq]
    simp only [h, Option.bind_eq_bind, Option.some_bind, List.nil_append]
    cases h1 : ctx.saved_ld_preloads <;> cases h2 : ctx.saved_snapcraft_preload <;> simp
  | some es =>
    simp only [Option.getD_some] at h ⊢
    rw [copy_loop_eq]
    simp only [h, Option.bind_eq_bind, Option.some_bind, List.nil_append]
    cases h1 : ctx.saved_ld_preloads <;> cases h2 : ctx.saved_snapcraft_preload <;> simp

theorem lastLdPreload_of_last (before after : List Str) (last : Str)
    (hlast : (LD_PRELOAD ++ ['=']) <+: last)
    (hafter : ∀ e ∈ after, ¬ (LD_PRELOAD ++ ['=']) <+: e) :
    lastLdPreload (before ++ last :: after) = last := by
  unfold lastLdPreload
  rw [List.foldl_append, List.foldl_cons, if_pos ((str_starts_with_iff _ _).mpr hlast)]
  induction after with
  | nil => rfl
  | cons e es ih =>
    rw [List.foldl_cons, if_neg (fun h => hafter e (List.mem_cons_self _ _)
      ((str_starts_with_iff _ _).mp h))]
    exact ih (fun x hx => hafter x (List.mem_cons_of_mem _ hx))

theorem lastLdPreload_of_none (es : List Str)
    (hnone : ∀ e ∈ es, ¬ (LD_PRELOAD ++ ['=']) <+: e) : lastLdPreload es = [] := by
  unfold lastLdPreload
  induction es with
  | nil => rfl
  | cons e es ih =>
    rw [List.foldl_cons, if_neg (fun h => hnone e (List.mem_cons_self _ _)
      ((str_starts_with_iff _ _).mp h))]
    exact ih (fun x hx => hnone x (List.mem_cons_of_mem _ hx))

/-- After the first loop `ld_preload` is empty or an entry `"LD_PRELOAD=" ++ v`. -/
theorem lastLdPreload_cases (es : List Str) :
    (lastLdPreload es = [] ∧ ∀ e ∈ es, ¬ (LD_PRELOAD ++ ['=']) <+: e)
    ∨ ∃ before v after, es = before ++ (LD_PRELOAD ++ ['='] ++ v) :: after
        ∧ ∀ e ∈ after, ¬ (LD_PRELOAD ++ ['=']) <+: e := by
  induction es using List.reverseRecOn with
  | nil => exact Or.inl ⟨rfl, fun e he => absurd he (List.not_mem_nil _)⟩
  | append_singleton es e ih =>
    by_cases h : (LD_PRELOAD ++ ['=']) <+: e
    · obtain ⟨v, rfl⟩ := h
      exact Or.inr ⟨es, v, [], rfl, fun e he => absurd he (List.not_mem_nil _)⟩
    · rcases ih with ⟨h1, h2⟩ | ⟨before, v, after, h1, h2⟩
      · refine Or.inl ⟨?_, ?_⟩
        · apply lastLdPreload_of_none
          intro x hx
          rcases List.mem_append.mp hx with hx | hx
          · exact h2 x hx
          · rw [List.mem_singleton.mp hx]; exact h
        · intro x hx
          rcases List.mem_append.mp hx with hx | hx
          · exact h2 x hx
          · rw [List.mem_singleton.mp hx]; exact h
      · refine Or.inr ⟨before, v, after ++ [e], by rw [h1]; simp, ?_⟩
        intro x hx
        rcases List.mem_append.mp hx with hx | hx
        · exact h2 x hx
        · rw [List.mem_singleton.mp hx]; exact h

theorem pathsToAppend_of_listed (listed ps : List Str) (h : ∀ p ∈ ps, p ∈ listed) :
    pathsToAppend listed ps = [] := by
  induction ps with
  | nil => rfl
  | cons p ps ih =>
    rw [pathsToAppend, if_pos (h p (List.mem_cons_self _ _))]
    exact ih (fun q hq => h q (List.mem_cons_of_mem _ hq))

theorem splitOn_inv (v : Str) :
    ∀ q : Str, q ≠ [] → (q ∈ getlines v ':' ↔ q ∈ v.splitOn ':') :=
  fun _ hq => ⟨mem_splitOn_of_mem_getlines, mem_getlines_of_mem_splitOn hq⟩

theorem snapcraft_entry_not_ld_preload (x : Str) :
    ¬ (LD_PRELOAD ++ ['=']) <+: SNAPCRAFT_PRELOAD ++ ['='] ++ x := by
  intro h
  have h1 : ['L'] <+: SNAPCRAFT_PRELOAD ++ ['='] ++ x :=
    (show ['L'] <+: LD_PRELOAD ++ ['='] by decide).trans h
  have h2 : ['L'] <+: SNAPCRAFT_PRELOAD ++ ['='] :=
    List.prefix_of_prefix_length_le h1 (List.prefix_append _ _) (by decide)
  exact absurd h2 (by decide)

theorem exampleEnv_saved_ld_preloads :
    (Initializer exampleEnv).saved_ld_preloads
      = ["/snap/skype/1/lib/libsnapcraft-preload.so".toList] := by
  have h : getlines (getenv_string exampleEnv LD_PRELOAD) ':'
      = ["/snap/skype/1/lib/libsnapcraft-preload.so".toList] :=
    getlines_single _ _ (by decide) (by decide)
  unfold Initializer
  simp only [h]
  decide

/-! ## Process replacement: claims -/

/-- C4 (exec environment propagation). For every inherited environment
`envp` (a null pointer too) and every context the initializer can save,
`execve_copy_envp` returns an environment that (1) starts with the entries of
`envp`, unchanged and in order; (2) when a self-load path was saved, holds an
entry `"LD_PRELOAD=" ++ value` whose colon-separated `value` lists every saved
path; `value` is the value of the last inherited `"LD_PRELOAD="` entry with
`":" ++ path` appended for exactly the saved paths not listed yet, and, when
no such entry is inherited, the first saved path with the others appended in
the same way; (3) when the saved `SNAPCRAFT_PRELOAD` is non-empty, holds the
entry `"SNAPCRAFT_PRELOAD=" ++ saved_snapcraft_preload`. -/
theorem execve_env_propagation (secure_getenv : Str → Option Str) (envp : Option (List Str)) :
    ∃ new_envp, execve_copy_envp (Initializer secure_getenv) envp = some new_envp
      ∧ envp.getD [] <+: new_envp
      ∧ ((Initializer secure_getenv).saved_ld_preloads ≠ [] →
          ∃ value, "LD_PRELOAD=".toList ++ value ∈ new_envp
            ∧ (∀ p ∈ (Initializer secure_getenv).saved_ld_preloads, p ∈ value.splitOn ':')
            ∧ (∀ before last_value after,
                envp.getD [] = before ++ ("LD_PRELOAD=".toList ++ last_value) :: after →
                (∀ e ∈ after, ¬ "LD_PRELOAD=".toList <+: e) →
                value = appendPaths last_value (pathsToAppend (last_value.splitOn ':')
                  (Initializer secure_getenv).saved_ld_preloads))
            ∧ ((∀ e ∈ envp.getD [], ¬ "LD_PRELOAD=".toList <+: e) →
                ∀ p ps, (Initializer secure_getenv).saved_ld_preloads = p :: ps →
                value = appendPaths p (pathsToAppend [p] ps)))
      ∧ ((Initializer secure_getenv).saved_snapcraft_preload ≠ [] →
          "SNAPCRAFT_PRELOAD=".toList ++ (Initializer secure_getenv).saved_snapcraft_preload
            ∈ new_envp) := by
  have hLD : "LD_PRELOAD=".toList = LD_PRELOAD ++ ['='] := rfl
  have hSP : "SNAPCRAFT_PRELOAD=".toList = SNAPCRAFT_PRELOAD ++ ['='] := rfl
  rw [hLD, hSP]
  have hgood := saved_ld_preloads_good secure_getenv
  -- the environment, once the loop over the saved paths has given `merged`
  have shape : ∀ merged : Str,
      (Initializer secure_getenv).saved_ld_preloads.foldlM ensure_in_ld_preload
        (lastLdPreload (envp.getD [])) = some merged →
      ∃ new_envp, execve_copy_envp (Initializer secure_getenv) envp = some new_envp
        ∧ envp.getD [] <+: new_envp
        ∧ ((Initializer secure_getenv).saved_ld_preloads ≠ [] → merged ∈ new_envp)
        ∧ ((Initializer secure_getenv).saved_snapcraft_preload ≠ [] →
            SNAPCRAFT_PRELOAD ++ ['='] ++ (Initializer secure_getenv).saved_snapcraft_preload
              ∈ new_envp) := by
    intro merged hfold
    refine ⟨_, execve_copy_envp_of_merged _ envp merged hfold, ?_, ?_, ?_⟩
    · rw [List.append_assoc]
      exact List.prefix_append _ _
    · intro hne
      rw [if_neg hne]
      simp
    · intro hne
      rw [if_neg hne]
      simp
  by_cases hsv : (Initializer secure_getenv).saved_ld_preloads = []
  · obtain ⟨new_envp, e1, e2, -, e4⟩ := shape (lastLdPreload (envp.getD [])) (by rw [hsv]; rfl)
    exact ⟨new_envp, e1, e2, fun hne => absurd hsv hne, e4⟩
  rcases lastLdPreload_cases (envp.getD []) with ⟨h1, h2⟩ | ⟨before, v, after, h1, h2⟩
  · -- no inherited entry: the first saved path starts the value
    obtain ⟨p, ps, hs⟩ := List.exists_cons_of_ne_nil hsv
    obtain ⟨hp1, hp2⟩ := hgood p (by rw [hs]; exact List.mem_cons_self _ _)
    have hinv : ∀ q : Str, q ≠ [] → (q ∈ getlines p ':' ↔ q ∈ [p]) := by
      intro q _
      rw [getlines_single p ':' hp1 hp2]
    obtain ⟨f1, f2, f3⟩ := foldlM_ensure_in_ld_preload ps
      (fun q hq => hgood q (by rw [hs]; exact List.mem_cons_of_mem _ hq)) p [p] hinv
    obtain ⟨new_envp, e1, e2, e3, e4⟩ := shape
      (LD_PRELOAD ++ ['='] ++ appendPaths p (pathsToAppend [p] ps)) (by
        rw [hs, h1, List.foldlM_cons, ensure_in_ld_preload_nil]
        exact f1)
    refine ⟨new_envp, e1, e2, fun _ => ⟨appendPaths p (pathsToAppend [p] ps), e3 hsv, ?_, ?_, ?_⟩,
      e4⟩
    · intro q hq
      rw [hs] at hq
      apply mem_splitOn_of_mem_getlines
      rcases List.mem_cons.mp hq with rfl | hq
      · exact f2 _ (by rw [getlines_single _ ':' hp1 hp2]; exact List.mem_singleton_self _) hp1
      · exact f3 q hq
    · intro before last_value after hdec _
      exact absurd (List.prefix_append _ last_value)
        (h2 _ (by rw [hdec]; exact List.mem_append_right _ (List.mem_cons_self _ _)))
    · intro _ p2 ps2 hs2
      rw [hs] at hs2
      obtain ⟨rfl, rfl⟩ := List.cons.inj hs2
      rfl
  · -- the last inherited entry is `"LD_PRELOAD=" ++ v`
    have hlast : lastLdPreload (envp.getD []) = LD_PRELOAD ++ ['='] ++ v := by
      rw [h1]
      exact lastLdPreload_of_last before after _ (List.prefix_append _ _) h2
    obtain ⟨f1, f2, f3⟩ := foldlM_ensure_in_ld_preload
      (Initializer secure_getenv).saved_ld_preloads hgood v (v.splitOn ':') (splitOn_inv v)
    obtain ⟨new_envp, e1, e2, e3, e4⟩ := shape _ (by rw [hlast]; exact f1)
    refine ⟨new_envp, e1, e2, fun _ => ⟨_, e3 hsv, ?_, ?_, ?_⟩, e4⟩
    · intro q hq
      exact mem_splitOn_of_mem_getlines (f3 q hq)
    · intro before2 last_value after2 hdec hafter2
      have hlast2 : lastLdPreload (envp.getD []) = LD_PRELOAD ++ ['='] ++ last_value := by
        rw [hdec]
        exact lastLdPreload_of_last before2 after2 _ (List.prefix_append _ _) hafter2
      have hv : v = last_value := List.append_cancel_left (hlast.symm.trans hlast2)
      rw [hv]
    · intro hnone
      exact absurd (List.prefix_append _ v)
        (hnone _ (by rw [h1]; exact List.mem_append_right _ (List.mem_cons_self _ _)))

theorem execve_env_propagation_witness :
    ∃ new_envp,
      execve_copy_envp (Initializer exampleEnv)
          (some ["HOME=/root".toList, "LD_PRELOAD=/usr/lib/libfoo.so".toList]) = some new_envp
      ∧ ["HOME=/root".toList, "LD_PRELOAD=/usr/lib/libfoo.so".toList] <+: new_envp
      ∧ (∃ value, "LD_PRELOAD=".toList ++ value ∈ new_envp
          ∧ (∀ p ∈ (Initializer exampleEnv).saved_ld_preloads, p ∈ value.splitOn ':')
          ∧ value
            = "/usr/lib/libfoo.so:/snap/skype/1/lib/libsnapcraft-preload.so".toList)
      ∧ "SNAPCRAFT_PRELOAD=/snap/skype/1".toList ∈ new_envp := by
  obtain ⟨new_envp, h1, h2, h3, h4⟩ := execve_env_propagation exampleEnv
    (some ["HOME=/root".toList, "LD_PRELOAD=/usr/lib/libfoo.so".toList])
  have hsaved : (Initializer exampleEnv).saved_ld_preloads ≠ [] := by
    rw [exampleEnv_saved_ld_preloads]
    exact List.cons_ne_nil _ _
  obtain ⟨value, v1, v2, v3, -⟩ := h3 hsaved
  refine ⟨new_envp, h1, h2, ⟨value, v1, v2, ?_⟩, h4 (by decide)⟩
  rw [v3 ["HOME=/root".toList] "/usr/lib/libfoo.so".toList [] rfl
    (fun e he => absurd he (List.not_mem_nil _)), exampleEnv_saved_ld_preloads]
  decide

/-- C5, as the claim states it, fails: the inherited environment has one
`"LD_PRELOAD="` entry, whose value is the one saved self-load path, and the
environment built for the replaced process has two entries that begin with
`"LD_PRELOAD="`. -/
theorem ld_preload_entry_counterexample :
    (Initializer exampleEnv).saved_ld_preloads
        = ["/snap/skype/1/lib/libsnapcraft-preload.so".toList]
    ∧ execve_copy_envp (Initializer exampleEnv)
          (some ["LD_PRELOAD=/snap/skype/1/lib/libsnapcraft-preload.so".toList])
        = some ["LD_PRELOAD=/snap/skype/1/lib/libsnapcraft-preload.so".toList,
            "LD_PRELOAD=/snap/skype/1/lib/libsnapcraft-preload.so".toList,
            "SNAPCRAFT_PRELOAD=/snap/skype/1".toList]
    ∧ List.countP (fun e => decide ("LD_PRELOAD=".toList <+: e))
          ["LD_PRELOAD=/snap/skype/1/lib/libsnapcraft-preload.so".toList,
            "LD_PRELOAD=/snap/skype/1/lib/libsnapcraft-preload.so".toList,
            "SNAPCRAFT_PRELOAD=/snap/skype/1".toList] = 2 := by
  refine ⟨exampleEnv_saved_ld_preloads, ?_, by decide⟩
  have hfold : (Initializer exampleEnv).saved_ld_preloads.foldlM ensure_in_ld_preload
      (lastLdPreload ((some ["LD_PRELOAD=/snap/skype/1/lib/libsnapcraft-preload.so".toList]).getD
        [])) = some "LD_PRELOAD=/snap/skype/1/lib/libsnapcraft-preload.so".toList := by
    have hl : lastLdPreload
        ((some ["LD_PRELOAD=/snap/skype/1/lib/libsnapcraft-preload.so".toList]).getD [])
        = LD_PRELOAD ++ ['='] ++ "/snap/skype/1/lib/libsnapcraft-preload.so".toList := by
      decide
    rw [exampleEnv_saved_ld_preloads, hl, List.foldlM_cons, ensure_in_ld_preload_entry,
      getlines_single _ _ (by decide) (by decide)]
    decide
  rw [execve_copy_envp_of_merged _ _ _ hfold, exampleEnv_saved_ld_preloads]
  decide

/-- C5 (environment merge), amended. For every inherited environment whose
last `"LD_PRELOAD="` entry lists every saved self-load path in its
colon-separated value, at least one path being saved, `execve_copy_envp`
returns the inherited entries followed by a copy of that last entry, with no
path appended to its value, and by the `SNAPCRAFT_PRELOAD` entry when one is
saved: the number of entries that begin with `"LD_PRELOAD="` is the inherited
number plus one. -/
theorem execve_env_merge (secure_getenv : Str → Option Str) (before after : List Str)
    (last_value : Str)
    (hafter : ∀ e ∈ after, ¬ "LD_PRELOAD=".toList <+: e)
    (hsaved : (Initializer secure_getenv).saved_ld_preloads ≠ [])
    (hlisted : ∀ p ∈ (Initializer secure_getenv).saved_ld_preloads,
      p ∈ last_value.splitOn ':') :
    ∃ new_envp,
      execve_copy_envp (Initializer secure_getenv)
          (some (before ++ ("LD_PRELOAD=".toList ++ last_value) :: after)) = some new_envp
      ∧ new_envp = (before ++ ("LD_PRELOAD=".toList ++ last_value) :: after)
          ++ [("LD_PRELOAD=".toList ++ last_value)]
          ++ (if (Initializer secure_getenv).saved_snapcraft_preload = [] then []
              else ["SNAPCRAFT_PRELOAD=".toList
                ++ (Initializer secure_getenv).saved_snapcraft_preload])
      ∧ new_envp.countP (fun e => decide ("LD_PRELOAD=".toList <+: e))
          = (before ++ ("LD_PRELOAD=".toList ++ last_value) :: after).countP
              (fun e => decide ("LD_PRELOAD=".toList <+: e)) + 1 := by
  have hLD : "LD_PRELOAD=".toList = LD_PRELOAD ++ ['='] := rfl
  have hSP : "SNAPCRAFT_PRELOAD=".toList = SNAPCRAFT_PRELOAD ++ ['='] := rfl
  rw [hLD, hSP] at *
  have hlast : lastLdPreload
      ((some (before ++ (LD_PRELOAD ++ ['='] ++ last_value) :: after)).getD [])
      = LD_PRELOAD ++ ['='] ++ last_value :=
    lastLdPreload_of_last before after _ (List.prefix_append _ _) hafter
  obtain ⟨f1, -, -⟩ := foldlM_ensure_in_ld_preload
    (Initializer secure_getenv).saved_ld_preloads (saved_ld_preloads_good secure_getenv)
    last_value (last_value.splitOn ':') (splitOn_inv last_value)
  rw [pathsToAppend_of_listed _ _ hlisted] at f1
  have hfold : (Initializer secure_getenv).saved_ld_preloads.foldlM ensure_in_ld_preload
      (lastLdPreload ((some (before ++ (LD_PRELOAD ++ ['='] ++ last_value) :: after)).getD []))
      = some (LD_PRELOAD ++ ['='] ++ last_value) := by
    rw [hlast]
    exact f1
  refine ⟨_, execve_copy_envp_of_merged _ _ _ hfold, ?_, ?_⟩
  · rw [if_neg hsaved]
    rfl
  · rw [if_neg hsaved, List.countP_append, List.countP_append]
    have h1 : List.countP (fun e => decide ((LD_PRELOAD ++ ['=']) <+: e))
        [LD_PRELOAD ++ ['='] ++ last_value] = 1 := by
      rw [List.countP_cons_of_pos]
      · rfl
      · exact decide_eq_true (List.prefix_append _ _)
    have h2 : List.countP (fun e => decide ((LD_PRELOAD ++ ['=']) <+: e))
        (if (Initializer secure_getenv).saved_snapcraft_preload = [] then []
          else [SNAPCRAFT_PRELOAD ++ ['=']
            ++ (Initializer secure_getenv).saved_snapcraft_preload]) = 0 := by
      split_ifs
      · rfl
      · rw [List.countP_cons_of_neg]
        · rfl
        · simpa using snapcraft_entry_not_ld_preload _
    rw [h1, h2]
    rfl

theorem execve_env_merge_witness :
    ∃ new_envp,
      execve_copy_envp (Initializer exampleEnv)
          (some ["LD_PRELOAD=/snap/skype/1/lib/libsnapcraft-preload.so".toList]) = some new_envp
      ∧ new_envp.countP (fun e => decide ("LD_PRELOAD=".toList <+: e)) = 2 := by
  obtain ⟨new_envp, h1, -, h3⟩ := execve_env_merge exampleEnv [] []
    "/snap/skype/1/lib/libsnapcraft-preload.so".toList
    (fun e he => absurd he (List.not_mem_nil _))
    (by rw [exampleEnv_saved_ld_preloads]; exact List.cons_ne_nil _ _)
    (by rw [exampleEnv_saved_ld_preloads]; decide)
  exact ⟨new_envp, h1, h3⟩
/-! ## Output confinement -/

/-- Cutting a path to `PATH_MAX` keeps a leading part shorter than `PATH_MAX`. -/
theorem prefix_string_length_sanitize (root rest : Str) (h : root.length < PATH_MAX) :
    root <+: string_length_sanitize (root ++ rest) := by
  unfold string_length_sanitize
  split_ifs
  · exact List.prefix_take_iff.mpr ⟨List.prefix_append _ _, le_of_lt h⟩
  · exact List.prefix_append _ _

/-- Output confinement for any context: a returned path strictly under
`"/dev/shm/"` is under the saved subpath or has the legacy target prefix. -/
theorem redirect_path_full_confined (ctx : Context) (pathname : Str)
    (check_parent only_if_absolute : Bool)
    (hctx : ctx.saved_snapcraft_preload ≠ [])
    (hlen : ctx.saved_snap_devshm.length < PATH_MAX) :
    ∃ r, redirect_path_full ctx pathname check_parent only_if_absolute = some r
      ∧ (DEFAULT_DEVSHM <+: r → DEFAULT_DEVSHM.length < r.length →
          ctx.saved_snap_devshm <+: r ∨ SKYPE_SNAP_SHM_TMPFILE <+: r) := by
  by_cases h1 : DEFAULT_DEVSHM <+: pathname
  · by_cases h2 : ctx.saved_snap_devshm <+: pathname
    · exact ⟨pathname, redirect_path_full_unchanged ctx pathname check_parent only_if_absolute
        (Or.inr (Or.inr (Or.inr (Or.inr (Or.inr h2))))), fun _ _ => Or.inl h2⟩
    · obtain ⟨X, rfl⟩ := h1
      by_cases hX : X = []
      · subst hX
        refine ⟨DEFAULT_DEVSHM ++ [], redirect_path_full_unchanged ctx _ check_parent
          only_if_absolute (Or.inr (Or.inr (Or.inr (Or.inr (Or.inl (List.append_nil _)))))), ?_⟩
        intro _ hl
        rw [List.append_nil] at hl
        exact absurd hl (lt_irrefl _)
      · by_cases h3 : SKYPE_DFLT_SHM_TMPFILE <+: DEFAULT_DEVSHM ++ X
        · obtain ⟨suffix, hs⟩ := h3
          rw [← hs] at h2 ⊢
          exact ⟨_, redirect_path_full_legacy ctx suffix check_parent only_if_absolute hctx h2,
            fun _ _ => Or.inr (List.prefix_append _ _)⟩
        · refine ⟨_, redirect_path_full_reroot ctx X check_parent only_if_absolute hctx hX h2 h3,
            fun _ _ => Or.inl ?_⟩
          rw [List.append_assoc]
          exact prefix_string_length_sanitize _ _ hlen
  · exact ⟨pathname, redirect_path_full_unchanged ctx pathname check_parent only_if_absolute
      (Or.inr (Or.inr (Or.inr (Or.inl h1)))), fun h _ => absurd h h1⟩

/-- C11 (output confinement invariant). With a non-empty saved
`SNAPCRAFT_PRELOAD` and a sandbox subpath `"/dev/shm/snap.<SNAP_NAME>"`
shorter than `PATH_MAX`, for every input path, both values of each flag of
`redirect_path_full` and each of the three redirect modes, a path is
returned, and if it begins with `"/dev/shm/"` and is longer than
`"/dev/shm/"`, then it begins with `"/dev/shm/snap.<SNAP_NAME>"` or with the
legacy target prefix `"/dev/shm/snap.skype.xx.Chromium."`. -/
theorem redirect_output_confined (secure_getenv : Str → Option Str) (pathname : Str)
    (hctx : (Initializer secure_getenv).saved_snapcraft_preload ≠ [])
    (hlen : ("/dev/shm/snap.".toList ++ getenv_string secure_getenv "SNAP_NAME".toList).length
      < PATH_MAX) :
    (∀ check_parent only_if_absolute : Bool,
      ∃ r, redirect_path_full (Initializer secure_getenv) pathname check_parent
            only_if_absolute = some r
        ∧ ("/dev/shm/".toList <+: r → "/dev/shm/".toList.length < r.length →
            ("/dev/shm/snap.".toList ++ getenv_string secure_getenv "SNAP_NAME".toList) <+: r
            ∨ "/dev/shm/snap.skype.xx.Chromium.".toList <+: r))
    ∧ ∀ mode : RedirectType,
      ∃ r, mode.redirect (Initializer secure_getenv) pathname = some r
        ∧ ("/dev/shm/".toList <+: r → "/dev/shm/".toList.length < r.length →
            ("/dev/shm/snap.".toList ++ getenv_string secure_getenv "SNAP_NAME".toList) <+: r
            ∨ "/dev/shm/snap.skype.xx.Chromium.".toList <+: r) := by
  have key : ∀ check_parent only_if_absolute : Bool,
      ∃ r, redirect_path_full (Initializer secure_getenv) pathname check_parent
            only_if_absolute = some r
        ∧ ("/dev/shm/".toList <+: r → "/dev/shm/".toList.length < r.length →
            ("/dev/shm/snap.".toList ++ getenv_string secure_getenv "SNAP_NAME".toList) <+: r
            ∨ "/dev/shm/snap.skype.xx.Chromium.".toList <+: r) :=
    fun check_parent only_if_absolute =>
      redirect_path_full_confined (Initializer secure_getenv) pathname check_parent
        only_if_absolute hctx hlen
  refine ⟨key, ?_⟩
  intro mode
  cases mode
  · exact key false false
  · exact key false true
  · exact key true false

theorem redirect_output_confined_witness :
    (∃ r, redirect_path_full (Initializer exampleEnv) "/dev/shm/foo".toList false false = some r
      ∧ "/dev/shm/snap.skype".toList <+: r)
    ∧ ∃ r, redirect_path_full (Initializer exampleEnv)
          ("/dev/shm/".toList ++ List.replicate 5000 'a') false true = some r
      ∧ ("/dev/shm/snap.skype".toList <+: r
        ∨ "/dev/shm/snap.skype.xx.Chromium.".toList <+: r) := by
  constructor
  · obtain ⟨r, h1, h2⟩ :=
      (redirect_output_confined exampleEnv "/dev/shm/foo".toList (by decide) (by decide)).1
        false false
    have e : r = "/dev/shm/snap.skype.foo".toList := Option.some.inj (h1.symm.trans (by decide))
    subst e
    exact ⟨_, h1, by decide⟩
  · obtain ⟨r, h1, h2⟩ :=
      (redirect_output_confined exampleEnv ("/dev/shm/".toList ++ List.replicate 5000 'a')
        (by decide) (by decide)).1 false true
    have e : r = string_length_sanitize
        ("/dev/shm/snap.skype.".toList ++ List.replicate 5000 'a') :=
      Option.some.inj (h1.symm.trans (redirect_path_full_reroot (Initializer exampleEnv)
        (List.replicate 5000 'a') false true (by decide) (by decide) (by decide) (by decide)))
    have hp : "/dev/shm/".toList <+: r := by
      rw [e]
      exact prefix_string_length_sanitize "/dev/shm/".toList
        ("snap.skype.".toList ++ List.replicate 5000 'a') (by decide)
    have hl : "/dev/shm/".toList.length < r.length := by
      have h20 : "/dev/shm/snap.skype.".toList <+: r := by
        rw [e]
        exact prefix_string_length_sanitize _ _ (by decide)
      have := h20.length_le
      have h9 : "/dev/shm/".toList.length = 9 := by decide
      have h20l : "/dev/shm/snap.skype.".toList.length = 20 := by decide
      omega
    exact ⟨r, h1, h2 hp hl⟩


end SnapcraftPreload
